import Mathlib

/-!
Verification development for the chess orchestration script `chess_advanced.py`.

Python strings that the program processes character by character are modelled
as `List Char`; `str.strip`/`str.lower`/`str.split` become list operations.
The external rules engine (python-chess) is a black box to the script: positions,
legal-move enumeration and terminal-condition flags are abstracted by a
`RulesEngine` structure, while `chess.Move.from_uci` (whose observable
behaviour the script depends on) is modelled by `from_uci` below.
Wall-clock time used by the rate limiter is modelled by `ℚ`.
-/

namespace ChessAdv

/-! ## Characters and python string primitives -/

/-- Model of `str.strip()` on the ASCII fragment: drop whitespace from both ends. -/
def pyStrip (l : List Char) : List Char :=
  ((l.dropWhile Char.isWhitespace).reverse.dropWhile Char.isWhitespace).reverse

/-- Model of `str.lower()` on the ASCII fragment: lower-case every character. -/
def pyLower (l : List Char) : List Char := l.map Char.toLower

/-- Model of `content.strip().lower()`, the normalisation applied by the script
before parsing move text. -/
def pyClean (l : List Char) : List Char := pyLower (pyStrip l)

/-- The first whitespace-delimited token of a string
(`content.split()[0] if content.split() else ""`). -/
def pyFirstWord (l : List Char) : List Char :=
  (l.dropWhile Char.isWhitespace).takeWhile (fun c => !c.isWhitespace)

/-- File letter of the regex class `[a-h]`. -/
def isFileChar (c : Char) : Bool :=
  c == 'a' || c == 'b' || c == 'c' || c == 'd' ||
  c == 'e' || c == 'f' || c == 'g' || c == 'h'

/-- Rank digit of the regex class `[1-8]`. -/
def isRankChar (c : Char) : Bool :=
  c == '1' || c == '2' || c == '3' || c == '4' ||
  c == '5' || c == '6' || c == '7' || c == '8'

/-- Promotion piece symbols accepted by `chess.Move.from_uci`
(`PIECE_SYMBOLS` of python-chess: p, n, b, r, q, k, with their indices). -/
def pieceIndex (c : Char) : Option Nat :=
  if c == 'p' then some 1
  else if c == 'n' then some 2
  else if c == 'b' then some 3
  else if c == 'r' then some 4
  else if c == 'q' then some 5
  else if c == 'k' then some 6
  else none

/-- Promotion letters of the regex class `[qrbn]` in
`_extract_move_from_response`. -/
def isPromoChar (c : Char) : Bool := c == 'q' || c == 'r' || c == 'b' || c == 'n'

/-- Word character for the regex metacharacter `\b` (ASCII fragment of
python's `\w`). -/
def isWordChar (c : Char) : Bool := c.isAlphanum || c == '_'

/-! ## Moves and `chess.Move.from_uci` -/

/-- A parsed move of the rules engine: from-square, to-square (0..63) and
promotion piece index (0 = no promotion, 1..6 = `PIECE_SYMBOLS` index). -/
structure MoveTok where
  fromSq : Nat
  toSq : Nat
  promo : Nat
deriving DecidableEq, Repr

/-- Square index of a file letter and rank digit (`SQUARE_NAMES.index`:
rank index times 8 plus file index; `'a'.toNat = 97`, `'1'.toNat = 49`). -/
def squareIndex (f r : Char) : Option Nat :=
  if isFileChar f && isRankChar r then
    some ((r.toNat - 49) * 8 + (f.toNat - 97))
  else none

/-- Square-square(-promotion) branch of `chess.Move.from_uci`: a 4/5
character string is from-square, to-square and optional promotion symbol,
rejected when the two squares coincide; anything else raises (modelled as
`none`). -/
def from_uciAux : List Char → Option MoveTok
  | [f1, r1, f2, r2] =>
    match squareIndex f1 r1, squareIndex f2 r2 with
    | some a, some b => if a = b then none else some ⟨a, b, 0⟩
    | _, _ => none
  | [f1, r1, f2, r2, p] =>
    match squareIndex f1 r1, squareIndex f2 r2, pieceIndex p with
    | some a, some b, some pr => if a = b then none else some ⟨a, b, pr⟩
    | _, _, _ => none
  | _ => none

/-- Model of `chess.Move.from_uci` as used by the script: `"0000"` is the
null move, otherwise the square-square(-promotion) parse.  Crazyhouse drop
tokens (`"q@e4"`), which the library would also parse, are omitted: a drop
is never a member of a standard board's legal-move set, so every use site
behaves identically. -/
def from_uci (l : List Char) : Option MoveTok :=
  if l = ['0', '0', '0', '0'] then some ⟨0, 0, 0⟩ else from_uciAux l

/-! ## The scanner of `_extract_move_from_response`

`re.findall(r'\b[a-h][1-8][a-h][1-8][qrbn]?\b', content)`: scan left to
right; at a position preceded by no word character try to match
file-rank-file-rank, then greedily an optional promotion letter, subject to
a trailing word boundary; on success resume after the match. -/

/-- Attempt the regex body (with its trailing `\b`) at the head of the
string.  Returns the matched characters and the rest of the string.
The optional `[qrbn]?` is greedy: if a promotion letter is present it must
be taken, and the boundary is then required after it (backtracking to the
4-character match would need a boundary right before the promotion letter,
which is impossible since it is a word character). -/
def tryMatch : List Char → Option (List Char × List Char)
  | f1 :: r1 :: f2 :: r2 :: rest =>
    if isFileChar f1 && isRankChar r1 && isFileChar f2 && isRankChar r2 then
      match rest with
      | [] => some ([f1, r1, f2, r2], [])
      | p :: rest' =>
        if isPromoChar p then
          match rest' with
          | [] => some ([f1, r1, f2, r2, p], [])
          | q :: _ =>
            if isWordChar q then none else some ([f1, r1, f2, r2, p], rest')
        else if isWordChar p then none
        else some ([f1, r1, f2, r2], rest)
    else none
  | _ => none

/-- One scanning pass.  `prevWord` records whether the previous character is
a word character (so whether `\b` fails at the current position); `fuel`
bounds the recursion and is instantiated with the length of the string. -/
def findAux : Nat → Bool → List Char → List (List Char)
  | 0, _, _ => []
  | _ + 1, _, [] => []
  | fuel + 1, prevWord, c :: rest =>
    match (if prevWord then none else tryMatch (c :: rest)) with
    | some (m, r) => m :: findAux fuel true r
    | none => findAux fuel (isWordChar c) rest

/-- Model of `re.findall` of the UCI pattern over the whole string. -/
def findall (l : List Char) : List (List Char) := findAux l.length false l

/-- The legality test applied to a scanner match: `chess.Move.from_uci`
inside `try`, then membership in the legal-move list (`ValueError`
means the candidate is skipped). -/
def legalPred (legal : List MoveTok) (m : List Char) : Bool :=
  match from_uci m with
  | some mv => decide (mv ∈ legal)
  | none => false

/-- The fallback of `_extract_move_from_response`: treat the first
whitespace-delimited word as a literal move and test it for legality. -/
def extractFallback (c : List Char) (legal : List MoveTok) : Option (List Char) :=
  let fw := pyFirstWord c
  if fw = [] then none
  else
    match from_uci fw with
    | some mv => if mv ∈ legal then some fw else none
    | none => none

/-- Model of `_extract_move_from_response`: clean the text, try every regex match in
order against the legal-move set, and fall back to the first
whitespace-delimited word. -/
def extract_move_from_response (content : List Char) (legal : List MoveTok) :
    Option (List Char) :=
  let c := pyClean content
  match (findall c).find? (legalPred legal) with
  | some m => some m
  | none => extractFallback c legal

/-! ## Specification-level renderings of Move Extraction (for claim C4)

Two further definitions of the scanner, written from the specification's
words rather than from the code, to be compared with `findall`:
`claimScan` enumerates every start position and records a grammar match
there with no word-boundary requirement (the claim's literal reading
of "all substrings matching the move-token grammar, in order of
appearance"); `boundaryScan` enumerates every start position but demands
the word boundaries, as the code's regex does. -/

/-- Greedy grammar match `[a-h][1-8][a-h][1-8][qrbn]?` at the head of a
string, with no boundary requirements. -/
def grammarAt : List Char → Option (List Char)
  | f1 :: r1 :: f2 :: r2 :: rest =>
    if isFileChar f1 && isRankChar r1 && isFileChar f2 && isRankChar r2 then
      match rest with
      | [] => some [f1, r1, f2, r2]
      | p :: _ =>
        if isPromoChar p then some [f1, r1, f2, r2, p] else some [f1, r1, f2, r2]
    else none
  | _ => none

/-- All grammar matches, one candidate per start position, in order of
appearance and with no boundary requirement. -/
def claimScan : List Char → List (List Char)
  | [] => []
  | c :: rest => (grammarAt (c :: rest)).toList ++ claimScan rest

/-- Modelled from the spec: "Scans for all substrings matching the
move-token grammar …; for each candidate in order of appearance, parses it
and accepts the first one that is a member of the legal-move set. If no
pattern match succeeds, falls back to treating the first
whitespace-delimited token as a literal move".  This is claim C4's literal
reading of Move Extraction, with no word-boundary requirement. -/
def extract_spec_claim (content : List Char) (legal : List MoveTok) :
    Option (List Char) :=
  let c := pyClean content
  match (claimScan c).find? (legalPred legal) with
  | some m => some m
  | none => extractFallback c legal

/-- All word-boundary-delimited grammar matches, examining every start
position in order of appearance (`prevWord` states whether a word character
immediately precedes the current position). -/
def boundaryScan : Bool → List Char → List (List Char)
  | _, [] => []
  | prevWord, c :: rest =>
    (((if prevWord then none else tryMatch (c :: rest))).map Prod.fst).toList ++
      boundaryScan (isWordChar c) rest

/-- Move Extraction as amended for claim C4: the first word-boundary-
delimited grammar match, in order of appearance, that is a member of the
legal-move set; the same fallback otherwise. -/
def extract_spec_boundary (content : List Char) (legal : List MoveTok) :
    Option (List Char) :=
  let c := pyClean content
  match (boundaryScan false c).find? (legalPred legal) with
  | some m => some m
  | none => extractFallback c legal

/-! ## Character-class facts -/

theorem isFileChar_props {c : Char} (h : isFileChar c = true) :
    isWordChar c = true ∧ c.isWhitespace = false ∧ c.toLower = c := by
  simp only [isFileChar, Bool.or_eq_true, beq_iff_eq] at h
  rcases h with ((((((h | h) | h) | h) | h) | h) | h) | h <;> subst h <;> decide

theorem isRankChar_props {c : Char} (h : isRankChar c = true) :
    isWordChar c = true ∧ c.isWhitespace = false ∧ c.toLower = c := by
  simp only [isRankChar, Bool.or_eq_true, beq_iff_eq] at h
  rcases h with ((((((h | h) | h) | h) | h) | h) | h) | h <;> subst h <;> decide

theorem isPromoChar_props {c : Char} (h : isPromoChar c = true) :
    isWordChar c = true ∧ c.isWhitespace = false ∧ c.toLower = c := by
  simp only [isPromoChar, Bool.or_eq_true, beq_iff_eq] at h
  rcases h with ((h | h) | h) | h <;> subst h <;> decide

theorem pieceIndex_props {c : Char} {n : Nat} (h : pieceIndex c = some n) :
    isWordChar c = true ∧ c.isWhitespace = false ∧ c.toLower = c := by
  by_cases h1 : c = 'p'
  · subst h1; decide
  by_cases h2 : c = 'n'
  · subst h2; decide
  by_cases h3 : c = 'b'
  · subst h3; decide
  by_cases h4 : c = 'r'
  · subst h4; decide
  by_cases h5 : c = 'q'
  · subst h5; decide
  by_cases h6 : c = 'k'
  · subst h6; decide
  exfalso
  unfold pieceIndex at h
  simp [h1, h2, h3, h4, h5, h6] at h

theorem squareIndex_props {f r : Char} {a : Nat} (h : squareIndex f r = some a) :
    isFileChar f = true ∧ isRankChar r = true := by
  unfold squareIndex at h
  split at h
  · rename_i hc
    simpa [Bool.and_eq_true] using hc
  · simp at h

/-! ## Parsed move strings are already clean -/

theorem from_uciAux_chars :
    ∀ {u : List Char} {mv : MoveTok}, from_uciAux u = some mv →
      ∀ c ∈ u, c.isWhitespace = false ∧ c.toLower = c
  | [f1, r1, f2, r2], mv, h => by
    simp only [from_uciAux] at h
    cases h1 : squareIndex f1 r1 with
    | none => rw [h1] at h; simp at h
    | some a =>
      cases h2 : squareIndex f2 r2 with
      | none => rw [h1, h2] at h; simp at h
      | some b =>
        obtain ⟨hf1, hr1⟩ := squareIndex_props h1
        obtain ⟨hf2, hr2⟩ := squareIndex_props h2
        intro c hc
        simp only [List.mem_cons, List.not_mem_nil, or_false] at hc
        rcases hc with hc | hc | hc | hc <;> subst hc
        · exact (isFileChar_props hf1).2
        · exact (isRankChar_props hr1).2
        · exact (isFileChar_props hf2).2
        · exact (isRankChar_props hr2).2
  | [f1, r1, f2, r2, p], mv, h => by
    simp only [from_uciAux] at h
    cases h1 : squareIndex f1 r1 with
    | none => rw [h1] at h; simp at h
    | some a =>
      cases h2 : squareIndex f2 r2 with
      | none => rw [h1, h2] at h; simp at h
      | some b =>
        cases h3 : pieceIndex p with
        | none => rw [h1, h2, h3] at h; simp at h
        | some pr =>
          obtain ⟨hf1, hr1⟩ := squareIndex_props h1
          obtain ⟨hf2, hr2⟩ := squareIndex_props h2
          intro c hc
          simp only [List.mem_cons, List.not_mem_nil, or_false] at hc
          rcases hc with hc | hc | hc | hc | hc <;> subst hc
          · exact (isFileChar_props hf1).2
          · exact (isRankChar_props hr1).2
          · exact (isFileChar_props hf2).2
          · exact (isRankChar_props hr2).2
          · exact (pieceIndex_props h3).2
  | [], _, h => by simp [from_uciAux] at h
  | [_], _, h => by simp [from_uciAux] at h
  | [_, _], _, h => by simp [from_uciAux] at h
  | [_, _, _], _, h => by simp [from_uciAux] at h
  | _ :: _ :: _ :: _ :: _ :: _ :: _, _, h => by simp [from_uciAux] at h

theorem from_uci_chars {u : List Char} {mv : MoveTok} (h : from_uci u = some mv) :
    ∀ c ∈ u, c.isWhitespace = false ∧ c.toLower = c := by
  unfold from_uci at h
  split at h
  · rename_i hnull
    subst hnull
    intro c hc
    simp only [List.mem_cons, List.not_mem_nil, or_false] at hc
    rcases hc with hc | hc | hc | hc <;> subst hc <;> decide
  · exact from_uciAux_chars h

theorem dropWhile_eq_self_of {p : Char → Bool} {l : List Char}
    (h : ∀ c ∈ l, p c = false) : l.dropWhile p = l := by
  cases l with
  | nil => rfl
  | cons a tl => simp [List.dropWhile_cons, h a (List.mem_cons_self a tl)]

theorem pyStrip_eq_self {l : List Char} (h : ∀ c ∈ l, c.isWhitespace = false) :
    pyStrip l = l := by
  unfold pyStrip
  rw [dropWhile_eq_self_of h,
      dropWhile_eq_self_of (fun c hc => h c (List.mem_reverse.mp hc)),
      List.reverse_reverse]

theorem pyLower_eq_self {l : List Char} (h : ∀ c ∈ l, c.toLower = c) :
    pyLower l = l := by
  unfold pyLower
  calc l.map Char.toLower = l.map id := List.map_congr_left h
  _ = l := List.map_id l

theorem pyClean_eq_self {l : List Char}
    (h : ∀ c ∈ l, c.isWhitespace = false ∧ c.toLower = c) : pyClean l = l := by
  unfold pyClean
  rw [pyStrip_eq_self (fun c hc => (h c hc).1), pyLower_eq_self (fun c hc => (h c hc).2)]

/-- A string accepted by `from_uci` is unchanged by `.strip().lower()`:
the driver's re-normalisation of a move returned by a player is the
identity. -/
theorem from_uci_clean {u : List Char} {mv : MoveTok} (h : from_uci u = some mv) :
    pyClean u = u :=
  pyClean_eq_self (from_uci_chars h)

/-! ## The scanner examines every position (claim C4) -/

theorem tryMatch_decomp :
    ∀ {l m r : List Char}, tryMatch l = some (m, r) →
      l = m ++ r ∧ m ≠ [] ∧ ∀ x ∈ m, isWordChar x = true
  | [], _, _, h => by simp [tryMatch] at h
  | [_], _, _, h => by simp [tryMatch] at h
  | [_, _], _, _, h => by simp [tryMatch] at h
  | [_, _, _], _, _, h => by simp [tryMatch] at h
  | f1 :: r1 :: f2 :: r2 :: rest, m, r, h => by
    simp only [tryMatch] at h
    split at h
    · rename_i hc
      simp only [Bool.and_eq_true] at hc
      obtain ⟨⟨⟨hf1, hr1⟩, hf2⟩, hr2⟩ := hc
      have wf1 := (isFileChar_props hf1).1
      have wr1 := (isRankChar_props hr1).1
      have wf2 := (isFileChar_props hf2).1
      have wr2 := (isRankChar_props hr2).1
      split at h
      · -- rest = []
        simp only [Option.some.injEq, Prod.mk.injEq] at h
        obtain ⟨hm, hr⟩ := h
        subst hm; subst hr
        refine ⟨by simp, by simp, ?_⟩
        intro x hx
        simp only [List.mem_cons, List.not_mem_nil, or_false] at hx
        rcases hx with hx | hx | hx | hx <;> subst hx <;> assumption
      · -- rest = p :: rest'
        rename_i p rest'
        split at h
        · rename_i hp
          have wp := (isPromoChar_props hp).1
          split at h
          · -- rest' = []
            simp only [Option.some.injEq, Prod.mk.injEq] at h
            obtain ⟨hm, hr⟩ := h
            subst hm; subst hr
            refine ⟨by simp, by simp, ?_⟩
            intro x hx
            simp only [List.mem_cons, List.not_mem_nil, or_false] at hx
            rcases hx with hx | hx | hx | hx | hx <;> subst hx <;> assumption
          · -- rest' = q :: rest''
            split at h
            · exact absurd h (by simp)
            · simp only [Option.some.injEq, Prod.mk.injEq] at h
              obtain ⟨hm, hr⟩ := h
              subst hm; subst hr
              refine ⟨by simp, by simp, ?_⟩
              intro x hx
              simp only [List.mem_cons, List.not_mem_nil, or_false] at hx
              rcases hx with hx | hx | hx | hx | hx <;> subst hx <;> assumption
        · split at h
          · exact absurd h (by simp)
          · simp only [Option.some.injEq, Prod.mk.injEq] at h
            obtain ⟨hm, hr⟩ := h
            subst hm; subst hr
            refine ⟨by simp, by simp, ?_⟩
            intro x hx
            simp only [List.mem_cons, List.not_mem_nil, or_false] at hx
            rcases hx with hx | hx | hx | hx <;> subst hx <;> assumption
    · exact absurd h (by simp)

theorem boundaryScan_append_word {m' : List Char} (r : List Char)
    (h : ∀ x ∈ m', isWordChar x = true) :
    boundaryScan true (m' ++ r) = boundaryScan true r := by
  induction m' with
  | nil => rfl
  | cons a tl ih =>
    have ha := h a (List.mem_cons_self a tl)
    simp only [List.cons_append, boundaryScan, if_true, Option.map_none', Option.toList_none,
      List.nil_append]
    rw [ha]
    exact ih (fun x hx => h x (List.mem_cons_of_mem a hx))

theorem findAux_eq_boundaryScan :
    ∀ (fuel : Nat) (b : Bool) (l : List Char),
      l.length ≤ fuel → findAux fuel b l = boundaryScan b l := by
  intro fuel
  induction fuel with
  | zero =>
    intro b l hl
    have : l = [] := by cases l <;> simp_all
    subst this
    rfl
  | succ n ih =>
    intro b l hl
    cases l with
    | nil => rfl
    | cons c rest =>
      have hlen : rest.length ≤ n := by simpa using hl
      cases hb : (if b then none else tryMatch (c :: rest)) with
      | none =>
        simp only [findAux, boundaryScan, hb, Option.map_none', Option.toList_none,
          List.nil_append]
        exact ih _ rest hlen
      | some pr =>
        obtain ⟨m, r⟩ := pr
        have hd : tryMatch (c :: rest) = some (m, r) := by
          cases b
          · simpa using hb
          · simp at hb
        obtain ⟨heq, hne, hword⟩ := tryMatch_decomp hd
        cases m with
        | nil => exact absurd rfl hne
        | cons c0 m' =>
          have hc0 : c = c0 := by
            have := heq
            simp only [List.cons_append, List.cons.injEq] at this
            exact this.1
          have hrest : rest = m' ++ r := by
            have := heq
            simp only [List.cons_append, List.cons.injEq] at this
            exact this.2
          have hwc : isWordChar c = true := by
            rw [hc0]; exact hword c0 (List.mem_cons_self c0 m')
          have hrlen : r.length ≤ n := by
            have : r.length ≤ rest.length := by
              rw [hrest]; simp
            omega
          have htail : findAux n true r = boundaryScan (isWordChar c) rest := by
            rw [ih _ r hrlen, hwc, hrest,
              boundaryScan_append_word r (fun x hx => hword x (List.mem_cons_of_mem c0 hx))]
          simp only [findAux, boundaryScan, hb, Option.map_some', Option.toList_some,
            List.singleton_append, htail]

/-- Claim C4 (amended): Move Extraction returns the first word-boundary-
delimited substring (in order of appearance in the lowercased, trimmed
text) that matches the move-token grammar and is a member of the
legal-move set; if no such match validates, it returns the first
whitespace-delimited token if that token is a legal move, and absent
otherwise.  Determinism is immediate: the extraction is a pure function of
the text and the legal-move set. -/
theorem extract_move_first_boundary_match (content : List Char) (legal : List MoveTok) :
    extract_move_from_response content legal = extract_spec_boundary content legal := by
  simp only [extract_move_from_response, extract_spec_boundary, findall,
    findAux_eq_boundaryScan (pyClean content).length false (pyClean content) (le_refl _)]

/-- Claim C4 as literally stated is false: in the response text
`"xe2e4 e7e5"` with both `e2e4` and `e7e5` legal, the first substring (in
order of appearance) matching the move-token grammar and belonging to the
legal-move set is `"e2e4"` (at offset 1), but the code returns `"e7e5"`,
because `"e2e4"` is preceded by the word character `x` and so fails the
regex's word-boundary requirement. -/
theorem extract_move_counterexample :
    extract_move_from_response "xe2e4 e7e5".data [⟨12, 28, 0⟩, ⟨52, 36, 0⟩] =
        some "e7e5".data ∧
      extract_spec_claim "xe2e4 e7e5".data [⟨12, 28, 0⟩, ⟨52, 36, 0⟩] =
        some "e2e4".data := by
  constructor <;> decide

/-- A move returned by Move Extraction always parses and is always a member
of the supplied legal-move set. -/
theorem extract_legal {content : List Char} {legal : List MoveTok} {m : List Char}
    (h : extract_move_from_response content legal = some m) :
    ∃ mv, from_uci m = some mv ∧ mv ∈ legal := by
  simp only [extract_move_from_response] at h
  split at h
  · rename_i m' hf
    injection h with h'
    subst h'
    have hp := List.find?_some hf
    unfold legalPred at hp
    cases hu : from_uci m' with
    | none => rw [hu] at hp; simp at hp
    | some mv =>
      rw [hu] at hp
      simp only [decide_eq_true_eq] at hp
      exact ⟨mv, rfl, hp⟩
  · simp only [extractFallback] at h
    split at h
    · simp at h
    · split at h
      · rename_i mv hu
        split at h
        · rename_i hmem
          injection h with h'
          subst h'
          exact ⟨mv, hu, hmem⟩
        · simp at h
      · simp at h

/-! ## Game state, rules engine and game session -/

/-- Model of `GameState`, the script's global game state. -/
structure GameState where
  shouldTerminate : Bool
  terminationReason : String
  moveCount : Nat
  consecutiveErrors : Nat
deriving DecidableEq, Repr

/-- The fresh state `GameState()` at process start. -/
def GameState.init : GameState := ⟨false, "", 0, 0⟩

/-- Model of `GameState.terminate_game`: set the termination flag and record the
reason (the print is I/O only). -/
def GameState.terminate_game (g : GameState) (reason : String) : GameState :=
  { g with shouldTerminate := true, terminationReason := reason }

/-- Terminal-condition queries the script reads from a rules-engine
position (`board.is_checkmate()` and the following elif tests, plus
`board.turn`, true when white is to move). -/
structure BoardFlags where
  is_checkmate : Bool
  is_stalemate : Bool
  is_insufficient_material : Bool
  is_fivefold_repetition : Bool
  is_seventyfive_moves : Bool
  can_claim_draw : Bool
  turn : Bool
deriving DecidableEq, Repr

/-- The abstract rules-engine collaborator (python-chess), abstracted as a
position type together with the operations the script consumes. -/
structure RulesEngine where
  Pos : Type
  legal_moves : Pos → List MoveTok
  push : Pos → MoveTok → Pos
  flags : Pos → BoardFlags
  is_check : Pos → Bool

/-- Modelled from the chess rules implemented by the engine collaborator
(out of scope of the script itself): checkmate is no-legal-moves with the
king in check, stalemate is no-legal-moves without check. -/
structure ChessSemantics (E : RulesEngine) : Prop where
  checkmate_iff : ∀ p, (E.flags p).is_checkmate = ((E.legal_moves p).isEmpty && E.is_check p)
  stalemate_iff : ∀ p, (E.flags p).is_stalemate = ((E.legal_moves p).isEmpty && !E.is_check p)

/-- The mutable state of `ChessGame` the claims concern: the board and the
move history. -/
structure Session (E : RulesEngine) where
  board : E.Pos
  move_history : List (List Char)

/-- Model of `ChessGame._validate_and_make_move`: clean the move text, parse it with
`chess.Move.from_uci` (`ValueError` means failure), test membership in the
legal-move set, and on success push the move, bump the move counter, append
the cleaned text to the history and reset the consecutive-error counter.
The SVG export is best-effort I/O with no effect on game state and is not
modelled; the catch-all `except` around the body has no failure source in
the modelled operations. -/
def validate_and_make_move (E : RulesEngine) (s : Session E) (g : GameState)
    (uci_move_str : List Char) : Bool × Session E × GameState :=
  let cleaned := pyClean uci_move_str
  match from_uci cleaned with
  | none => (false, s, g)
  | some move =>
    if move ∈ E.legal_moves s.board then
      (true,
        { board := E.push s.board move,
          move_history := s.move_history ++ [cleaned] },
        { g with moveCount := g.moveCount + 1, consecutiveErrors := 0 })
    else (false, s, g)

/-- Apply `_validate_and_make_move` to a sequence of raw move texts in
order, threading the session and game state. -/
def applyMoves (E : RulesEngine) : Session E → GameState → List (List Char) →
    Session E × GameState
  | s, g, [] => (s, g)
  | s, g, t :: ts =>
    applyMoves E (validate_and_make_move E s g t).2.1 (validate_and_make_move E s g t).2.2 ts

/-- Case analysis of `_validate_and_make_move`: either it fails and returns
the state untouched, or the cleaned text parses to a legal move and the
move is committed. -/
theorem validate_cases (E : RulesEngine) (s : Session E) (g : GameState) (t : List Char) :
    validate_and_make_move E s g t = (false, s, g) ∨
    ∃ mv, from_uci (pyClean t) = some mv ∧ mv ∈ E.legal_moves s.board ∧
      validate_and_make_move E s g t =
        (true,
          { board := E.push s.board mv, move_history := s.move_history ++ [pyClean t] },
          { g with moveCount := g.moveCount + 1, consecutiveErrors := 0 }) := by
  simp only [validate_and_make_move]
  cases hp : from_uci (pyClean t) with
  | none => exact Or.inl rfl
  | some mv =>
    by_cases hm : mv ∈ E.legal_moves s.board
    · exact Or.inr ⟨mv, rfl, hm, by simp [hm]⟩
    · simp [hm]

/-- Claim C1: for every sequence of moves fed to the apply operation from a
state where the invariant holds, the Move History length equals the move
counter afterwards (hence at every observation point, quantifying over the
sequence); each accepted move increments the counter by one and appends
exactly one token, and rejected moves change neither. -/
theorem move_history_length_eq_move_count (E : RulesEngine) (s : Session E) (g : GameState)
    (h : s.move_history.length = g.moveCount) (moves : List (List Char)) :
    ((applyMoves E s g moves).1.move_history.length = (applyMoves E s g moves).2.moveCount) ∧
    (∀ t, (validate_and_make_move E s g t).1 = true →
      (validate_and_make_move E s g t).2.2.moveCount = g.moveCount + 1 ∧
      (validate_and_make_move E s g t).2.1.move_history = s.move_history ++ [pyClean t]) ∧
    (∀ t, (validate_and_make_move E s g t).1 = false →
      (validate_and_make_move E s g t).2.1.move_history = s.move_history ∧
      (validate_and_make_move E s g t).2.2.moveCount = g.moveCount) := by
  refine ⟨?_, ?_, ?_⟩
  · induction moves generalizing s g with
    | nil => simpa [applyMoves] using h
    | cons t ts ih =>
      simp only [applyMoves]
      rcases validate_cases E s g t with hc | ⟨mv, _, _, hc⟩
      · rw [hc]
        exact ih s g h
      · rw [hc]
        exact ih _ _ (by simp [h])
  · intro t ht
    rcases validate_cases E s g t with hc | ⟨mv, _, _, hc⟩
    · rw [hc] at ht
      simp at ht
    · rw [hc]
      exact ⟨rfl, rfl⟩
  · intro t ht
    rcases validate_cases E s g t with hc | ⟨mv, _, _, hc⟩
    · rw [hc]
      exact ⟨rfl, rfl⟩
    · rw [hc] at ht
      simp at ht

/-- A small concrete rules engine used to exercise the theorems: positions
are numbers, every position has the single legal move a2a3
(square 8 to square 16), and no terminal flags are set. -/
@[reducible] def demoEngine : RulesEngine where
  Pos := Nat
  legal_moves := fun _ => [⟨8, 16, 0⟩]
  push := fun p _ => p + 1
  flags := fun _ => ⟨false, false, false, false, false, false, true⟩
  is_check := fun _ => false

theorem move_history_length_eq_move_count_witness :
    ([] : List (List Char)).length = GameState.init.moveCount ∧
    (applyMoves demoEngine ⟨0, []⟩ GameState.init
        ["a2a3".data, "zz99".data]).1.move_history.length =
      (applyMoves demoEngine ⟨0, []⟩ GameState.init ["a2a3".data, "zz99".data]).2.moveCount :=
  ⟨rfl,
    (move_history_length_eq_move_count demoEngine ⟨0, []⟩ GameState.init rfl
      ["a2a3".data, "zz99".data]).1⟩

/-- Claim C3: when the apply operation rejects a move text (unparsable, or
not a member of the current legal-move set), the board, the move counter,
the move history and the consecutive-error counter are all unchanged; in
particular the error counter is not reset. -/
theorem reject_leaves_state_unchanged (E : RulesEngine) (s : Session E) (g : GameState)
    (t : List Char) (h : (validate_and_make_move E s g t).1 = false) :
    (validate_and_make_move E s g t).2.1.board = s.board ∧
    (validate_and_make_move E s g t).2.2.moveCount = g.moveCount ∧
    (validate_and_make_move E s g t).2.1.move_history = s.move_history ∧
    (validate_and_make_move E s g t).2.2.consecutiveErrors = g.consecutiveErrors ∧
    (validate_and_make_move E s g t).2.2.shouldTerminate = g.shouldTerminate := by
  rcases validate_cases E s g t with hc | ⟨mv, _, _, hc⟩
  · rw [hc]
    exact ⟨rfl, rfl, rfl, rfl, rfl⟩
  · rw [hc] at h
    simp at h

theorem reject_leaves_state_unchanged_witness :
    (validate_and_make_move demoEngine ⟨0, []⟩ GameState.init "zz99".data).1 = false ∧
    (validate_and_make_move demoEngine ⟨0, []⟩ GameState.init "zz99".data).2.1.board = 0 ∧
    (validate_and_make_move demoEngine ⟨0, []⟩ GameState.init "zz99".data).2.2.moveCount =
      GameState.init.moveCount ∧
    (validate_and_make_move demoEngine ⟨0, []⟩ GameState.init "zz99".data).2.1.move_history =
      [] ∧
    (validate_and_make_move demoEngine ⟨0, []⟩
        GameState.init "zz99".data).2.2.consecutiveErrors =
      GameState.init.consecutiveErrors ∧
    (validate_and_make_move demoEngine ⟨0, []⟩ GameState.init "zz99".data).2.2.shouldTerminate =
      GameState.init.shouldTerminate := by
  have h := reject_leaves_state_unchanged demoEngine ⟨0, []⟩ GameState.init "zz99".data rfl
  exact ⟨rfl, h.1, h.2.1, h.2.2.1, h.2.2.2.1, h.2.2.2.2⟩

/-! ## Terminal-condition detection -/

/-- Model of `ChessGame._check_game_over`: test the terminal conditions in the
script's if/elif order, terminating the game with the corresponding reason;
returns whether the game is over. -/
def check_game_over (b : BoardFlags) (g : GameState) : Bool × GameState :=
  if b.is_checkmate then
    (true, g.terminate_game ("CHECKMATE! " ++ (if b.turn then "Black" else "White") ++ " wins!"))
  else if b.is_stalemate then (true, g.terminate_game "STALEMATE! Draw.")
  else if b.is_insufficient_material then (true, g.terminate_game "DRAW! Insufficient material.")
  else if b.is_fivefold_repetition then (true, g.terminate_game "DRAW! Fivefold repetition.")
  else if b.is_seventyfive_moves then (true, g.terminate_game "DRAW! Seventy-five move rule.")
  else if b.can_claim_draw then (true, g.terminate_game "DRAW! Draw can be claimed.")
  else (false, g)

/-- Modelled from the spec: the fixed priority order "checkmate, stalemate,
insufficient material, fivefold repetition, seventy-five-move rule,
claimable draw", each with the reason it reports. -/
def terminalPriority (b : BoardFlags) : List (Bool × String) :=
  [(b.is_checkmate, "CHECKMATE! " ++ (if b.turn then "Black" else "White") ++ " wins!"),
   (b.is_stalemate, "STALEMATE! Draw."),
   (b.is_insufficient_material, "DRAW! Insufficient material."),
   (b.is_fivefold_repetition, "DRAW! Fivefold repetition."),
   (b.is_seventyfive_moves, "DRAW! Seventy-five move rule."),
   (b.can_claim_draw, "DRAW! Draw can be claimed.")]

/-- The first terminal condition that holds, in priority order. -/
def firstTerminalReason (b : BoardFlags) : Option String :=
  ((terminalPriority b).find? (fun pr => pr.1)).map (fun pr => pr.2)

theorem check_game_over_eq_first (b : BoardFlags) (g : GameState) :
    check_game_over b g =
      match firstTerminalReason b with
      | some r => (true, g.terminate_game r)
      | none => (false, g) := by
  obtain ⟨c1, c2, c3, c4, c5, c6, tn⟩ := b
  cases c1 <;> cases c2 <;> cases c3 <;> cases c4 <;> cases c5 <;> cases c6 <;> rfl

/-- Claim C5: `_check_game_over` tests the terminal conditions in the fixed
priority order checkmate, stalemate, insufficient material, fivefold
repetition, seventy-five-move rule, claimable draw, and reports the first
one that holds (or none); in particular a position with no legal moves for
the side to move and the king in check is reported as checkmate even when
other conditions hold as well. -/
theorem check_game_over_priority (E : RulesEngine) (hsem : ChessSemantics E)
    (p : E.Pos) (g : GameState) :
    (check_game_over (E.flags p) g =
      match firstTerminalReason (E.flags p) with
      | some r => (true, g.terminate_game r)
      | none => (false, g)) ∧
    (E.legal_moves p = [] → E.is_check p = true →
      check_game_over (E.flags p) g =
        (true, g.terminate_game
          ("CHECKMATE! " ++ (if (E.flags p).turn then "Black" else "White") ++ " wins!"))) := by
  refine ⟨check_game_over_eq_first _ g, ?_⟩
  intro hl hk
  have hcm : (E.flags p).is_checkmate = true := by
    rw [hsem.checkmate_iff p, hl, hk]
    rfl
  unfold check_game_over
  rw [hcm]
  simp

/-- A concrete rules engine whose unique position is checkmate (no legal
moves, king in check), satisfying the chess semantics. -/
@[reducible] def mateEngine : RulesEngine where
  Pos := Unit
  legal_moves := fun _ => []
  push := fun p _ => p
  flags := fun _ => ⟨true, false, false, false, false, false, true⟩
  is_check := fun _ => true

theorem mateEngine_semantics : ChessSemantics mateEngine :=
  ⟨fun _ => rfl, fun _ => rfl⟩

theorem check_game_over_priority_witness :
    mateEngine.legal_moves () = [] ∧ mateEngine.is_check () = true ∧
    check_game_over (mateEngine.flags ()) GameState.init =
      (true, GameState.init.terminate_game
        ("CHECKMATE! " ++ (if (mateEngine.flags ()).turn then "Black" else "White") ++
          " wins!")) :=
  ⟨rfl, rfl,
    (check_game_over_priority mateEngine mateEngine_semantics () GameState.init).2 rfl rfl⟩

/-! ## Remote-agent Move Source (`DirectGeminiChessPlayer.get_move`) -/

/-- Outcome of one API attempt, as the script's handlers distinguish them:
non-200 status, request timeout, transport error, any other exception, a
200 response without candidates, or a 200 response whose first candidate
carries the given text. -/
inductive ApiOutcome where
  | httpError (status : Nat)
  | timeout
  | netError
  | otherError
  | noCandidates
  | response (text : List Char)

/-- The retry loop of `DirectGeminiChessPlayer.get_move`.  `remaining` is
`max_retries - retry_count`, `k` indexes the attempt whose outcome the
environment `outcomes` supplies.  Returns the move (or absent) and the
number of loop iterations performed.  Every failure class increments
`retry_count` by one; the no-legal-moves check returns immediately inside
the first iteration.  The rate-limiter call and the backoff sleeps change
no game-visible state and are modelled elsewhere. -/
def geminiAttempts (legal : List MoveTok) (outcomes : Nat → ApiOutcome) :
    Nat → Nat → Option (List Char) × Nat
  | 0, _ => (none, 0)
  | n + 1, k =>
    if legal.isEmpty then (none, 1)
    else
      match outcomes k with
      | .response text =>
        match extract_move_from_response text legal with
        | some m => (some m, 1)
        | none =>
          ((geminiAttempts legal outcomes n (k + 1)).1,
            (geminiAttempts legal outcomes n (k + 1)).2 + 1)
      | _ =>
        ((geminiAttempts legal outcomes n (k + 1)).1,
          (geminiAttempts legal outcomes n (k + 1)).2 + 1)

/-- Model of `DirectGeminiChessPlayer.get_move` with its fixed `max_retries = 3`. -/
def gemini_get_move (legal : List MoveTok) (outcomes : Nat → ApiOutcome) :
    Option (List Char) × Nat :=
  geminiAttempts legal outcomes 3 0

/-- An attempt that yields no usable move: any failure class, or a response
from which no legal move can be extracted. -/
def attemptFails (legal : List MoveTok) : ApiOutcome → Bool
  | .response text => (extract_move_from_response text legal).isNone
  | _ => true

theorem geminiAttempts_count_le (legal : List MoveTok) (outcomes : Nat → ApiOutcome) :
    ∀ n k, (geminiAttempts legal outcomes n k).2 ≤ n := by
  intro n
  induction n with
  | zero => intro k; simp [geminiAttempts]
  | succ n ih =>
    intro k
    simp only [geminiAttempts]
    split
    · simp
    · split
      · split
        · simp
        · simpa using ih (k + 1)
      · simpa using ih (k + 1)

theorem geminiAttempts_all_fail (legal : List MoveTok) (outcomes : Nat → ApiOutcome)
    (hl : legal ≠ []) :
    ∀ n k, (∀ j, k ≤ j → j < k + n → attemptFails legal (outcomes j) = true) →
      geminiAttempts legal outcomes n k = (none, n) := by
  intro n
  induction n with
  | zero => intro k _; rfl
  | succ n ih =>
    intro k hf
    have hne : legal.isEmpty = false := by
      cases legal
      · exact absurd rfl hl
      · rfl
    have hk := hf k (le_refl k) (by omega)
    have hrec : geminiAttempts legal outcomes n (k + 1) = (none, n) :=
      ih (k + 1) (fun j h1 h2 => hf j (by omega) (by omega))
    simp only [geminiAttempts, hne, Bool.false_eq_true, if_false]
    cases ho : outcomes k with
    | response text =>
      rw [ho] at hk
      simp only [attemptFails] at hk
      cases he : extract_move_from_response text legal with
      | some m => rw [he] at hk; simp at hk
      | none => simp [he, hrec]
    | httpError s => simp [hrec]
    | timeout => simp [hrec]
    | netError => simp [hrec]
    | otherError => simp [hrec]
    | noCandidates => simp [hrec]

theorem geminiAttempts_some_legal (legal : List MoveTok) (outcomes : Nat → ApiOutcome) :
    ∀ n k m, (geminiAttempts legal outcomes n k).1 = some m →
      ∃ mv, from_uci m = some mv ∧ mv ∈ legal := by
  intro n
  induction n with
  | zero => intro _k m h; simp [geminiAttempts] at h
  | succ n ih =>
    intro k m h
    simp only [geminiAttempts] at h
    split at h
    · simp at h
    · split at h
      · rename_i text
        split at h
        · rename_i m' he
          simp only [Option.some.injEq] at h
          subst h
          exact extract_legal he
        · exact ih (k + 1) m (by simpa using h)
      · exact ih (k + 1) m (by simpa using h)

/-- Claim C6: the remote-agent Move Source makes at most 3 attempts; with
no legal moves it returns absent immediately, within the first iteration
and without retrying; and when every attempt fails it returns absent to
the driver after exactly the 3 attempts, rather than raising. -/
theorem gemini_retry_policy (legal : List MoveTok) (outcomes : Nat → ApiOutcome) :
    (gemini_get_move legal outcomes).2 ≤ 3 ∧
    (legal = [] → gemini_get_move legal outcomes = (none, 1)) ∧
    (legal ≠ [] → (∀ k, k < 3 → attemptFails legal (outcomes k) = true) →
      gemini_get_move legal outcomes = (none, 3)) := by
  refine ⟨geminiAttempts_count_le legal outcomes 3 0, ?_, ?_⟩
  · intro hl
    subst hl
    rfl
  · intro hl hf
    exact geminiAttempts_all_fail legal outcomes hl 3 0 (fun j h1 h2 => hf j (by omega))

theorem gemini_retry_policy_witness :
    (gemini_get_move [] (fun _ => ApiOutcome.timeout)).2 ≤ 3 ∧
    gemini_get_move [] (fun _ => ApiOutcome.timeout) = (none, 1) ∧
    gemini_get_move [⟨8, 16, 0⟩] (fun _ => ApiOutcome.timeout) = (none, 3) :=
  ⟨(gemini_retry_policy [] (fun _ => ApiOutcome.timeout)).1,
    (gemini_retry_policy [] (fun _ => ApiOutcome.timeout)).2.1 rfl,
    (gemini_retry_policy [⟨8, 16, 0⟩] (fun _ => ApiOutcome.timeout)).2.2
      (List.cons_ne_nil _ _) (fun _k _ => rfl)⟩

/-! ## Interactive-human Move Source (`HumanChessPlayer.get_move`) -/

/-- One console interaction as seen by the input loop: a line of input, a
`KeyboardInterrupt`, or an `EOFError`. -/
inductive ConsoleEvent where
  | line (s : List Char)
  | interrupt
  | eof

/-- Model of `HumanChessPlayer.get_move`: loop over console events.  `quit`
terminates the game and returns absent; `help`, `legal` and empty lines
continue the loop; a parsable move that is a member of the legal-move set
is returned (already stripped and lowered); anything else continues the
loop; interrupt and end of input terminate the game and return absent (an
exhausted event list is end of input).  All prints are I/O only. -/
def human_get_move (legal : List MoveTok) (g : GameState) :
    List ConsoleEvent → Option (List Char) × GameState
  | [] => (none, g.terminate_game "Input ended")
  | e :: evs =>
    match e with
    | .interrupt => (none, g.terminate_game "User interrupted")
    | .eof => (none, g.terminate_game "Input ended")
    | .line s =>
      let u := pyClean s
      if u = "quit".data then (none, g.terminate_game "Human player quit")
      else if u = "help".data then human_get_move legal g evs
      else if u = "legal".data then human_get_move legal g evs
      else if u = [] then human_get_move legal g evs
      else
        match from_uci u with
        | some mv => if mv ∈ legal then (some u, g) else human_get_move legal g evs
        | none => human_get_move legal g evs

theorem human_get_move_some (legal : List MoveTok) :
    ∀ (evs : List ConsoleEvent) (g : GameState) (m : List Char) (g' : GameState),
      human_get_move legal g evs = (some m, g') →
      (∃ mv, from_uci m = some mv ∧ mv ∈ legal) ∧ g' = g := by
  intro evs
  induction evs with
  | nil => intro g m g' h; simp [human_get_move] at h
  | cons e evs ih =>
    intro g m g' h
    cases e with
    | interrupt => simp [human_get_move] at h
    | eof => simp [human_get_move] at h
    | line s =>
      simp only [human_get_move] at h
      split at h
      · simp at h
      · split at h
        · exact ih g m g' h
        · split at h
          · exact ih g m g' h
          · split at h
            · exact ih g m g' h
            · split at h
              · rename_i mv hu
                split at h
                · rename_i hmem
                  simp only [Prod.mk.injEq, Option.some.injEq] at h
                  obtain ⟨h1, h2⟩ := h
                  subst h1
                  exact ⟨⟨mv, hu, hmem⟩, h2.symm⟩
                · exact ih g m g' h
              · exact ih g m g' h

theorem human_get_move_none (legal : List MoveTok) :
    ∀ (evs : List ConsoleEvent) (g : GameState) (g' : GameState),
      human_get_move legal g evs = (none, g') →
      ∃ r, g' = g.terminate_game r := by
  intro evs
  induction evs with
  | nil =>
    intro g g' h
    simp only [human_get_move, Prod.mk.injEq] at h
    exact ⟨"Input ended", h.2.symm⟩
  | cons e evs ih =>
    intro g g' h
    cases e with
    | interrupt =>
      simp only [human_get_move, Prod.mk.injEq] at h
      exact ⟨"User interrupted", h.2.symm⟩
    | eof =>
      simp only [human_get_move, Prod.mk.injEq] at h
      exact ⟨"Input ended", h.2.symm⟩
    | line s =>
      simp only [human_get_move] at h
      split at h
      · simp only [Prod.mk.injEq] at h
        exact ⟨"Human player quit", h.2.symm⟩
      · split at h
        · exact ih g g' h
        · split at h
          · exact ih g g' h
          · split at h
            · exact ih g g' h
            · split at h
              · split at h
                · simp at h
                · exact ih g g' h
              · exact ih g g' h

/-- Claim C10: whenever either Move Source variant returns a move rather
than absent, the move parses with `chess.Move.from_uci` and is a member of
the legal-move set supplied at solicitation time; neither variant ever
returns an illegal or unparsable token (and the human variant leaves the
game state untouched in that case). -/
theorem get_move_returns_only_legal (legal : List MoveTok) :
    (∀ (outcomes : Nat → ApiOutcome) (m : List Char),
      (gemini_get_move legal outcomes).1 = some m →
      ∃ mv, from_uci m = some mv ∧ mv ∈ legal) ∧
    (∀ (g : GameState) (evs : List ConsoleEvent) (m : List Char) (g' : GameState),
      human_get_move legal g evs = (some m, g') →
      (∃ mv, from_uci m = some mv ∧ mv ∈ legal) ∧ g' = g) :=
  ⟨fun outcomes m h => geminiAttempts_some_legal legal outcomes 3 0 m h,
    fun g evs m g' h => human_get_move_some legal evs g m g' h⟩

theorem get_move_returns_only_legal_witness :
    (∃ mv, from_uci "a2a3".data = some mv ∧ mv ∈ [(⟨8, 16, 0⟩ : MoveTok)]) ∧
    ((∃ mv, from_uci "a2a3".data = some mv ∧ mv ∈ [(⟨8, 16, 0⟩ : MoveTok)]) ∧
      GameState.init = GameState.init) :=
  ⟨(get_move_returns_only_legal [⟨8, 16, 0⟩]).1
      (fun _ => ApiOutcome.response "I play a2a3".data) "a2a3".data rfl,
    (get_move_returns_only_legal [⟨8, 16, 0⟩]).2 GameState.init
      [ConsoleEvent.line "  A2A3 ".data] "a2a3".data GameState.init rfl⟩

/-! ## Session Driver (`ChessGame.play_game`) -/

/-- Which kind of player occupies a seat. -/
inductive SeatKind where
  | ai
  | human
deriving DecidableEq, Repr

/-- Player names as the script constructs them (`AI_White`, `Human_Black`,
from the seat kind and the colour; the boolean is `board.turn`, true for
white). -/
def seatName : SeatKind → Bool → String
  | .ai, true => "AI_White"
  | .ai, false => "AI_Black"
  | .human, true => "Human_White"
  | .human, false => "Human_Black"

/-- The environment consumed by one move solicitation: the API outcomes a
remote agent would see and the console events a human would produce.  The
driver uses whichever side matches the current seat. -/
structure SolicitInput where
  api : Nat → ApiOutcome
  console : List ConsoleEvent

/-- The driver's view of the whole game: session (board and history), the
global game state, and — as proof instrumentation, not program state — the
list of reasons passed to `terminate_game` so far, in call order. -/
structure DriverSt (E : RulesEngine) where
  session : Session E
  g : GameState
  reasons : List String

/-- Fresh driver state over a starting position. -/
def DriverSt.init (E : RulesEngine) (p : E.Pos) : DriverSt E :=
  ⟨⟨p, []⟩, GameState.init, []⟩

/-- The two exits at the top of each loop iteration: the while condition
(`not should_terminate and move_count < max_moves`) and the
`_check_game_over` break.  `none` means the iteration proceeds to a
solicitation. -/
def loopHalts (E : RulesEngine) (maxMoves : Nat) (st : DriverSt E) :
    Option (DriverSt E × Bool) :=
  if st.g.shouldTerminate || decide (maxMoves ≤ st.g.moveCount) then some (st, true)
  else
    if (check_game_over (E.flags st.session.board) st.g).1 then
      some
        ({ st with
            g := (check_game_over (E.flags st.session.board) st.g).2,
            reasons := st.reasons ++
              [(check_game_over (E.flags st.session.board) st.g).2.terminationReason] },
          true)
    else none

/-- The driver's handling of a failed solicitation (`move_str is None`):
increment the consecutive-error counter; at the ceiling terminate naming
the failing seat and break; below it, retry the same seat for a remote
agent (after a sleep) and break for a human.  `g` is the game state as the
solicitation left it (a human may already have terminated inside
`get_move`); `ghost` carries the reasons recorded there.  `Sum.inl` is a
loop break with the final state, `Sum.inr` continues the loop. -/
def failNoMove (E : RulesEngine) (st : DriverSt E) (g : GameState)
    (ghost : List String) (name : String) (isAi : Bool) :
    (DriverSt E × Bool) ⊕ DriverSt E :=
  if 3 ≤ g.consecutiveErrors + 1 then
    .inl
      ({ st with
          g := GameState.terminate_game { g with consecutiveErrors := g.consecutiveErrors + 1 }
            ("Too many consecutive errors from " ++ name),
          reasons := st.reasons ++ ghost ++
            ["Too many consecutive errors from " ++ name] },
        true)
  else if isAi then
    .inr
      { st with
          g := { g with consecutiveErrors := g.consecutiveErrors + 1 },
          reasons := st.reasons ++ ghost }
  else
    .inl
      ({ st with
          g := { g with consecutiveErrors := g.consecutiveErrors + 1 },
          reasons := st.reasons ++ ghost },
        true)

/-- The driver's validate-and-apply phase, applied to the result of
`_validate_and_make_move`: on success continue the loop with the committed
move; on failure increment the consecutive-error counter and either
terminate at the ceiling (with the reason "Too many invalid moves") or
continue with the same seat. -/
def applyMovePhase (E : RulesEngine) (st : DriverSt E) :
    Bool × Session E × GameState → (DriverSt E × Bool) ⊕ DriverSt E
  | (true, s', g') => .inr { st with session := s', g := g' }
  | (false, s', g') =>
    if 3 ≤ g'.consecutiveErrors + 1 then
      .inl
        ({ st with
            session := s',
            g := GameState.terminate_game
              { g' with consecutiveErrors := g'.consecutiveErrors + 1 }
              "Too many invalid moves",
            reasons := st.reasons ++ ["Too many invalid moves"] },
          true)
    else
      .inr { st with
        session := s',
        g := { g' with consecutiveErrors := g'.consecutiveErrors + 1 } }

/-- One solicitation of the current seat and the driver's reaction to it. -/
def solicitStep (E : RulesEngine) (seats : Bool → SeatKind) (i : SolicitInput)
    (st : DriverSt E) : (DriverSt E × Bool) ⊕ DriverSt E :=
  match seats (E.flags st.session.board).turn with
  | .ai =>
    match (gemini_get_move (E.legal_moves st.session.board) i.api).1 with
    | none =>
      failNoMove E st st.g [] (seatName .ai (E.flags st.session.board).turn) true
    | some m => applyMovePhase E st (validate_and_make_move E st.session st.g m)
  | .human =>
    match human_get_move (E.legal_moves st.session.board) st.g i.console with
    | (none, g') =>
      failNoMove E st g' [g'.terminationReason]
        (seatName .human (E.flags st.session.board).turn) false
    | (some m, g') => applyMovePhase E st (validate_and_make_move E st.session g' m)

/-- The while loop of `ChessGame.play_game`.  The returned boolean states
whether the loop exited by itself (condition or break) rather than by
exhausting the supplied solicitation inputs.  Sleeps and board display are
I/O only. -/
def runDriver (E : RulesEngine) (seats : Bool → SeatKind) (maxMoves : Nat) :
    List SolicitInput → DriverSt E → DriverSt E × Bool
  | [], st =>
    match loopHalts E maxMoves st with
    | some out => out
    | none => (st, false)
  | i :: ins, st =>
    match loopHalts E maxMoves st with
    | some out => out
    | none =>
      match solicitStep E seats i st with
      | .inl out => out
      | .inr st' => runDriver E seats maxMoves ins st'

/-- Model of `ChessGame.play_game`: run the loop, then the post-loop move-cap check
(`if game_state.move_count >= max_moves: …terminate…`), which in python
runs once the loop has exited (so only on completed runs here).  The final
statistics are I/O only. -/
def play_game (E : RulesEngine) (seats : Bool → SeatKind) (maxMoves : Nat)
    (ins : List SolicitInput) (st : DriverSt E) : DriverSt E × Bool :=
  if (runDriver E seats maxMoves ins st).2 &&
      decide (maxMoves ≤ (runDriver E seats maxMoves ins st).1.g.moveCount) then
    ({ (runDriver E seats maxMoves ins st).1 with
        g := (runDriver E seats maxMoves ins st).1.g.terminate_game
          ("Maximum moves (" ++ toString maxMoves ++ ") reached"),
        reasons := (runDriver E seats maxMoves ins st).1.reasons ++
          ["Maximum moves (" ++ toString maxMoves ++ ") reached"] },
      (runDriver E seats maxMoves ins st).2)
  else runDriver E seats maxMoves ins st

/-! ## Driver lemmas -/

theorem check_game_over_cases (b : BoardFlags) (g : GameState) :
    check_game_over b g = (false, g) ∨
    ∃ r, check_game_over b g = (true, g.terminate_game r) := by
  unfold check_game_over
  split
  · exact Or.inr ⟨_, rfl⟩
  split
  · exact Or.inr ⟨_, rfl⟩
  split
  · exact Or.inr ⟨_, rfl⟩
  split
  · exact Or.inr ⟨_, rfl⟩
  split
  · exact Or.inr ⟨_, rfl⟩
  split
  · exact Or.inr ⟨_, rfl⟩
  exact Or.inl rfl

/-- When the cleaned text parses to a legal move, the apply operation
succeeds and commits it. -/
theorem validate_success_of_legal (E : RulesEngine) (s : Session E) (g : GameState)
    (t : List Char) (mv : MoveTok) (hp : from_uci (pyClean t) = some mv)
    (hm : mv ∈ E.legal_moves s.board) :
    validate_and_make_move E s g t =
      (true,
        { board := E.push s.board mv, move_history := s.move_history ++ [pyClean t] },
        { g with moveCount := g.moveCount + 1, consecutiveErrors := 0 }) := by
  simp only [validate_and_make_move, hp]
  simp [hm]

/-- Loop invariant of a driver run: not yet terminated, no `terminate_game`
call recorded, and a nonzero consecutive-error counter implies the seat
about to move is a remote agent (the counter is reset on every applied move
and failures keep the turn, so errors only accumulate against one seat; a
human seat is always solicited with a zero counter). -/
def DriverInv (E : RulesEngine) (seats : Bool → SeatKind) (st : DriverSt E) : Prop :=
  st.g.shouldTerminate = false ∧ st.reasons = [] ∧
    (st.g.consecutiveErrors ≠ 0 → seats (E.flags st.session.board).turn = SeatKind.ai)

/-- Outcome classification of a driver run: an incomplete run preserves the
invariant; a completed run either stopped at the move cap with no
termination recorded yet, or recorded exactly one termination — whose
reason is the final recorded reason — with the cap not reached. -/
def RunOutcome (E : RulesEngine) (seats : Bool → SeatKind) (maxMoves : Nat)
    (r : DriverSt E × Bool) : Prop :=
  (r.2 = false → DriverInv E seats r.1) ∧
  (r.2 = true →
    (r.1.g.shouldTerminate = false ∧ r.1.reasons = [] ∧ maxMoves ≤ r.1.g.moveCount) ∨
    (r.1.g.shouldTerminate = true ∧ r.1.reasons = [r.1.g.terminationReason] ∧
      r.1.g.moveCount < maxMoves))

theorem loopHalts_cases (E : RulesEngine) (maxMoves : Nat) (st : DriverSt E)
    (hterm : st.g.shouldTerminate = false) (hreasons : st.reasons = []) :
    (loopHalts E maxMoves st = none ∧ st.g.moveCount < maxMoves ∧
      (check_game_over (E.flags st.session.board) st.g).1 = false) ∨
    (maxMoves ≤ st.g.moveCount ∧ loopHalts E maxMoves st = some (st, true)) ∨
    (st.g.moveCount < maxMoves ∧
      ∃ rsn, loopHalts E maxMoves st =
        some ({ st with g := st.g.terminate_game rsn, reasons := [rsn] }, true)) := by
  unfold loopHalts
  rw [hterm]
  by_cases hcap : maxMoves ≤ st.g.moveCount
  · right; left
    simp [hcap]
  · rcases check_game_over_cases (E.flags st.session.board) st.g with hco | ⟨rsn, hco⟩
    · left
      refine ⟨?_, by omega, by rw [hco]⟩
      simp [hcap, hco]
    · right; right
      refine ⟨by omega, rsn, ?_⟩
      simp [hcap, hco, hreasons, GameState.terminate_game]

theorem applyMovePhase_spec (E : RulesEngine) (seats : Bool → SeatKind) (st : DriverSt E)
    (g : GameState) (m : List Char)
    (hterm : g.shouldTerminate = false) (hreasons : st.reasons = [])
    (hok : (validate_and_make_move E st.session g m).1 = true ∨
      seats (E.flags st.session.board).turn = SeatKind.ai) :
    (∃ out, applyMovePhase E st (validate_and_make_move E st.session g m) = .inl out ∧
      out.2 = true ∧ out.1.g.shouldTerminate = true ∧
      out.1.reasons = [out.1.g.terminationReason] ∧ out.1.g.moveCount = g.moveCount) ∨
    (∃ st', applyMovePhase E st (validate_and_make_move E st.session g m) = .inr st' ∧
      DriverInv E seats st') := by
  rcases validate_cases E st.session g m with hv | ⟨mv, hp, hm, hv⟩
  · -- the apply fails: the state is unchanged, the seat must be an agent
    have hseat : seats (E.flags st.session.board).turn = SeatKind.ai := by
      rcases hok with hok | hok
      · rw [hv] at hok
        simp at hok
      · exact hok
    rw [hv]
    simp only [applyMovePhase]
    by_cases hce : 3 ≤ g.consecutiveErrors + 1
    · left
      rw [if_pos hce]
      refine ⟨_, rfl, rfl, rfl, ?_, rfl⟩
      simp [hreasons, GameState.terminate_game]
    · right
      rw [if_neg hce]
      exact ⟨_, rfl, hterm, hreasons, fun _ => hseat⟩
  · -- the apply succeeds: commit and continue with a reset error counter
    right
    rw [hv]
    simp only [applyMovePhase]
    exact ⟨_, rfl, hterm, hreasons, fun hne => absurd rfl hne⟩

theorem failNoMove_ai_spec (E : RulesEngine) (seats : Bool → SeatKind) (st : DriverSt E)
    (name : String)
    (hterm : st.g.shouldTerminate = false) (hreasons : st.reasons = [])
    (hseat : seats (E.flags st.session.board).turn = SeatKind.ai) :
    (∃ out, failNoMove E st st.g [] name true = .inl out ∧ out.2 = true ∧
      out.1.g.shouldTerminate = true ∧ out.1.reasons = [out.1.g.terminationReason] ∧
      out.1.g.moveCount = st.g.moveCount) ∨
    (∃ st', failNoMove E st st.g [] name true = .inr st' ∧ DriverInv E seats st') := by
  unfold failNoMove
  by_cases hce : 3 ≤ st.g.consecutiveErrors + 1
  · left
    rw [if_pos hce]
    refine ⟨_, rfl, rfl, rfl, ?_, rfl⟩
    simp [hreasons, GameState.terminate_game]
  · right
    rw [if_neg hce, if_pos rfl]
    exact ⟨_, rfl, hterm, by simp [hreasons], fun _ => hseat⟩

theorem failNoMove_human_spec (E : RulesEngine) (st : DriverSt E) (name rsn : String)
    (hreasons : st.reasons = [])
    (herr0 : st.g.consecutiveErrors = 0) :
    ∃ out, failNoMove E st (st.g.terminate_game rsn)
        [(st.g.terminate_game rsn).terminationReason] name false = .inl out ∧ out.2 = true ∧
      out.1.g.shouldTerminate = true ∧ out.1.reasons = [out.1.g.terminationReason] ∧
      out.1.g.moveCount = st.g.moveCount := by
  unfold failNoMove
  have hce : ¬ 3 ≤ (st.g.terminate_game rsn).consecutiveErrors + 1 := by
    simp [GameState.terminate_game, herr0]
  rw [if_neg hce, if_neg (by simp)]
  refine ⟨_, rfl, rfl, rfl, ?_, rfl⟩
  simp [hreasons, GameState.terminate_game]

theorem solicitStep_spec (E : RulesEngine) (seats : Bool → SeatKind) (i : SolicitInput)
    (st : DriverSt E)
    (hterm : st.g.shouldTerminate = false) (hreasons : st.reasons = [])
    (herr : st.g.consecutiveErrors ≠ 0 → seats (E.flags st.session.board).turn = SeatKind.ai) :
    (∃ out, solicitStep E seats i st = .inl out ∧ out.2 = true ∧
      out.1.g.shouldTerminate = true ∧ out.1.reasons = [out.1.g.terminationReason] ∧
      out.1.g.moveCount = st.g.moveCount) ∨
    (∃ st', solicitStep E seats i st = .inr st' ∧ DriverInv E seats st') := by
  unfold solicitStep
  cases hseat : seats (E.flags st.session.board).turn with
  | ai =>
    cases hmv : (gemini_get_move (E.legal_moves st.session.board) i.api).1 with
    | none => exact failNoMove_ai_spec E seats st _ hterm hreasons hseat
    | some m => exact applyMovePhase_spec E seats st st.g m hterm hreasons (Or.inr hseat)
  | human =>
    cases hr : human_get_move (E.legal_moves st.session.board) st.g i.console with
    | mk ropt rg =>
      cases ropt with
      | none =>
        obtain ⟨rsn, hrg⟩ := human_get_move_none _ _ _ _ hr
        subst hrg
        have herr0 : st.g.consecutiveErrors = 0 := by
          by_contra hne
          rw [herr hne] at hseat
          simp at hseat
        exact Or.inl (failNoMove_human_spec E st _ rsn hreasons herr0)
      | some m =>
        obtain ⟨⟨mv, hu, hmem⟩, hrg⟩ := human_get_move_some _ _ _ _ _ hr
        subst hrg
        have hclean : pyClean m = m := from_uci_clean hu
        have hsucc : (validate_and_make_move E st.session st.g m).1 = true := by
          rw [validate_success_of_legal E st.session st.g m mv (by rw [hclean]; exact hu) hmem]
        exact applyMovePhase_spec E seats st st.g m hterm hreasons (Or.inl hsucc)

theorem runDriver_spec (E : RulesEngine) (seats : Bool → SeatKind) (maxMoves : Nat) :
    ∀ (ins : List SolicitInput) (st : DriverSt E), DriverInv E seats st →
      RunOutcome E seats maxMoves (runDriver E seats maxMoves ins st) := by
  intro ins
  induction ins with
  | nil =>
    intro st hinv
    obtain ⟨hterm, hreasons, herr⟩ := hinv
    rcases loopHalts_cases E maxMoves st hterm hreasons with
      ⟨hl, hcap, _⟩ | ⟨hcap, hl⟩ | ⟨hcap, rsn, hl⟩
    · simp only [runDriver, hl]
      exact ⟨fun _ => ⟨hterm, hreasons, herr⟩, fun h => by simp at h⟩
    · simp only [runDriver, hl]
      exact ⟨fun h => by simp at h, fun _ => Or.inl ⟨hterm, hreasons, hcap⟩⟩
    · simp only [runDriver, hl]
      exact ⟨fun h => by simp at h, fun _ => Or.inr ⟨rfl, rfl, hcap⟩⟩
  | cons i ins ih =>
    intro st hinv
    obtain ⟨hterm, hreasons, herr⟩ := hinv
    rcases loopHalts_cases E maxMoves st hterm hreasons with
      ⟨hl, hcap, _⟩ | ⟨hcap, hl⟩ | ⟨hcap, rsn, hl⟩
    · rcases solicitStep_spec E seats i st hterm hreasons herr with
        ⟨out, hs, hdone, houtterm, houtreas, houtcount⟩ | ⟨st', hs, hinv'⟩
      · simp only [runDriver, hl, hs]
        refine ⟨fun h => ?_, fun _ => Or.inr ⟨houtterm, houtreas, by omega⟩⟩
        rw [hdone] at h
        simp at h
      · simp only [runDriver, hl, hs]
        exact ih st' hinv'
    · simp only [runDriver, hl]
      exact ⟨fun h => by simp at h, fun _ => Or.inl ⟨hterm, hreasons, hcap⟩⟩
    · simp only [runDriver, hl]
      exact ⟨fun h => by simp at h, fun _ => Or.inr ⟨rfl, rfl, hcap⟩⟩

/-- Claim C8: the Session Termination Record is write-once along every
driver run from a fresh session: on every completed run `terminate_game`
is called exactly once — at the first terminal-condition, error-budget or
move-cap event — the recorded reason is that single call's reason, and an
unfinished run has recorded nothing; no later event overwrites the record.
-/
theorem termination_record_write_once (E : RulesEngine) (seats : Bool → SeatKind)
    (maxMoves : Nat) (ins : List SolicitInput) (p : E.Pos) :
    (play_game E seats maxMoves ins (DriverSt.init E p)).1.reasons.length ≤ 1 ∧
    ((play_game E seats maxMoves ins (DriverSt.init E p)).2 = true →
      (play_game E seats maxMoves ins (DriverSt.init E p)).1.reasons =
        [(play_game E seats maxMoves ins (DriverSt.init E p)).1.g.terminationReason] ∧
      (play_game E seats maxMoves ins (DriverSt.init E p)).1.g.shouldTerminate = true) ∧
    ((play_game E seats maxMoves ins (DriverSt.init E p)).2 = false →
      (play_game E seats maxMoves ins (DriverSt.init E p)).1.reasons = [] ∧
      (play_game E seats maxMoves ins (DriverSt.init E p)).1.g.shouldTerminate = false) := by
  have hspec := runDriver_spec E seats maxMoves ins (DriverSt.init E p)
    ⟨rfl, rfl, fun h => absurd rfl h⟩
  obtain ⟨hincomplete, hcomplete⟩ := hspec
  cases hdone : (runDriver E seats maxMoves ins (DriverSt.init E p)).2 with
  | false =>
    obtain ⟨hterm, hreasons, _⟩ := hincomplete hdone
    have hres : play_game E seats maxMoves ins (DriverSt.init E p) =
        runDriver E seats maxMoves ins (DriverSt.init E p) := by
      unfold play_game
      simp [hdone]
    rw [hres, hdone, hreasons, hterm]
    exact ⟨by simp, fun h => by simp at h, fun _ => ⟨rfl, rfl⟩⟩
  | true =>
    rcases hcomplete hdone with ⟨hterm, hreasons, hcap⟩ | ⟨hterm, hreasons, hcap⟩
    · -- loop exit at the move cap: the post-loop check records the one reason
      have hres : play_game E seats maxMoves ins (DriverSt.init E p) =
          ({ (runDriver E seats maxMoves ins (DriverSt.init E p)).1 with
              g := (runDriver E seats maxMoves ins (DriverSt.init E p)).1.g.terminate_game
                ("Maximum moves (" ++ toString maxMoves ++ ") reached"),
              reasons := (runDriver E seats maxMoves ins (DriverSt.init E p)).1.reasons ++
                ["Maximum moves (" ++ toString maxMoves ++ ") reached"] },
            (runDriver E seats maxMoves ins (DriverSt.init E p)).2) := by
        unfold play_game
        simp [hdone, hcap]
      rw [hres, hdone, hreasons]
      exact ⟨by simp, fun _ => ⟨by simp [GameState.terminate_game], rfl⟩,
        fun h => by simp at h⟩
    · -- the loop already terminated below the cap: the record is untouched
      have hnc : ¬ maxMoves ≤
          (runDriver E seats maxMoves ins (DriverSt.init E p)).1.g.moveCount := by
        omega
      have hres : play_game E seats maxMoves ins (DriverSt.init E p) =
          runDriver E seats maxMoves ins (DriverSt.init E p) := by
        unfold play_game
        simp [hdone, hnc]
      rw [hres, hdone, hreasons]
      exact ⟨by simp, fun _ => ⟨rfl, hterm⟩, fun h => by simp at h⟩

/-- Claim C7: whenever the Error Counter stands one below the ceiling
(default 3) and the current seat's solicitation fails again — the Error
Counter thus reaching the ceiling through consecutive failed
solicitations — the driver terminates the session with a recorded reason
naming the failing seat, regardless of the remaining move-cap headroom
(any `moveCount < maxMoves` qualifies). -/
theorem error_ceiling_terminates (E : RulesEngine) (seats : Bool → SeatKind)
    (maxMoves : Nat) (st : DriverSt E) (i : SolicitInput) (ins : List SolicitInput)
    (hterm : st.g.shouldTerminate = false)
    (hcap : st.g.moveCount < maxMoves)
    (hgo : (check_game_over (E.flags st.session.board) st.g).1 = false)
    (herr : st.g.consecutiveErrors = 2)
    (hfail :
      match seats (E.flags st.session.board).turn with
      | SeatKind.ai => (gemini_get_move (E.legal_moves st.session.board) i.api).1 = none
      | SeatKind.human =>
        (human_get_move (E.legal_moves st.session.board) st.g i.console).1 = none) :
    (play_game E seats maxMoves (i :: ins) st).1.g.shouldTerminate = true ∧
    (play_game E seats maxMoves (i :: ins) st).1.g.terminationReason =
      "Too many consecutive errors from " ++
        seatName (seats (E.flags st.session.board).turn)
          (E.flags st.session.board).turn := by
  have hhalt : loopHalts E maxMoves st = none := by
    unfold loopHalts
    simp [hterm, hgo, Nat.not_le.mpr hcap]
  cases hseat : seats (E.flags st.session.board).turn with
  | ai =>
    rw [hseat] at hfail
    replace hfail : (gemini_get_move (E.legal_moves st.session.board) i.api).1 = none := hfail
    have hsol : solicitStep E seats i st =
        failNoMove E st st.g [] (seatName SeatKind.ai (E.flags st.session.board).turn)
          true := by
      unfold solicitStep
      rw [hseat]
      cases hmv : (gemini_get_move (E.legal_moves st.session.board) i.api).1 with
      | none => rfl
      | some m => simp [hfail] at hmv
    have h3 : 3 ≤ st.g.consecutiveErrors + 1 := by omega
    have hrun : runDriver E seats maxMoves (i :: ins) st =
        ({ st with
            g := GameState.terminate_game
              { st.g with consecutiveErrors := st.g.consecutiveErrors + 1 }
              ("Too many consecutive errors from " ++
                seatName SeatKind.ai (E.flags st.session.board).turn),
            reasons := st.reasons ++ [] ++
              ["Too many consecutive errors from " ++
                seatName SeatKind.ai (E.flags st.session.board).turn] },
          true) := by
      simp only [runDriver]
      rw [hhalt, hsol]
      unfold failNoMove
      rw [if_pos h3]
    unfold play_game
    rw [hrun]
    simp [GameState.terminate_game, Nat.not_le.mpr hcap]
  | human =>
    rw [hseat] at hfail
    replace hfail :
        (human_get_move (E.legal_moves st.session.board) st.g i.console).1 = none := hfail
    obtain ⟨rsn, hrg⟩ := human_get_move_none (E.legal_moves st.session.board) i.console st.g
      (human_get_move (E.legal_moves st.session.board) st.g i.console).2
      (Prod.ext_iff.mpr ⟨hfail, rfl⟩)
    have hsol : solicitStep E seats i st =
        failNoMove E st
          (human_get_move (E.legal_moves st.session.board) st.g i.console).2
          [(human_get_move (E.legal_moves st.session.board) st.g i.console).2.terminationReason]
          (seatName SeatKind.human (E.flags st.session.board).turn) false := by
      unfold solicitStep
      rw [hseat]
      cases hr : human_get_move (E.legal_moves st.session.board) st.g i.console with
      | mk ropt rg =>
        cases ropt with
        | none => rfl
        | some m => rw [hr] at hfail; simp at hfail
    rw [hrg] at hsol
    have h3 : 3 ≤ (st.g.terminate_game rsn).consecutiveErrors + 1 := by
      simp [GameState.terminate_game, herr]
    have hrun : runDriver E seats maxMoves (i :: ins) st =
        ({ st with
            g := GameState.terminate_game
              { st.g.terminate_game rsn with
                consecutiveErrors := (st.g.terminate_game rsn).consecutiveErrors + 1 }
              ("Too many consecutive errors from " ++
                seatName SeatKind.human (E.flags st.session.board).turn),
            reasons := st.reasons ++ [(st.g.terminate_game rsn).terminationReason] ++
              ["Too many consecutive errors from " ++
                seatName SeatKind.human (E.flags st.session.board).turn] },
          true) := by
      simp only [runDriver]
      rw [hhalt, hsol]
      unfold failNoMove
      rw [if_pos h3]
    unfold play_game
    rw [hrun]
    simp [GameState.terminate_game, Nat.not_le.mpr hcap]

theorem error_ceiling_terminates_witness :
    (play_game demoEngine (fun _ => SeatKind.ai) 150
        [⟨fun _ => ApiOutcome.timeout, []⟩]
        ⟨⟨0, []⟩, ⟨false, "", 0, 2⟩, []⟩).1.g.shouldTerminate = true ∧
    (play_game demoEngine (fun _ => SeatKind.ai) 150
        [⟨fun _ => ApiOutcome.timeout, []⟩]
        ⟨⟨0, []⟩, ⟨false, "", 0, 2⟩, []⟩).1.g.terminationReason =
      "Too many consecutive errors from AI_White" :=
  error_ceiling_terminates demoEngine (fun _ => SeatKind.ai) 150
    ⟨⟨0, []⟩, ⟨false, "", 0, 2⟩, []⟩ ⟨fun _ => ApiOutcome.timeout, []⟩ []
    rfl (by decide) rfl rfl rfl

/-! ## Quota Governor (`RateLimiter`)

Wall-clock timestamps are rationals, in seconds; the calendar day of a
timestamp is the floor of time divided by 86400, so local midnight falls on
the multiples of 86400.  Sleeping is exact: the clock after a sleep is the
requested wake-up time. -/

/-- The `RateLimiter` state: the configured capacities, the two timestamp
ledgers, and the calendar day of `last_reset_time`. -/
structure RLState where
  max_calls_per_minute : Nat
  max_calls_per_day : Nat
  calls_per_minute : List ℚ
  calls_per_day : List ℚ
  lastResetDay : ℤ

/-- The state of `RateLimiter(max_calls_per_minute, max_calls_per_day)` as constructed on
calendar day `d0`. -/
def RateLimiter_init (mpm mpd : Nat) (d0 : ℤ) : RLState :=
  ⟨mpm, mpd, [], [], d0⟩

/-- The calendar day of a timestamp (`datetime.date()`). -/
def dayOf (t : ℚ) : ℤ := ⌊t / 86400⌋

/-- Model of `min(list)` over the timestamps; python raises `ValueError` on an
empty list, which is unreachable at the one use site whenever the
per-minute capacity is positive. -/
def listMin : List ℚ → Option ℚ
  | [] => none
  | x :: xs =>
    match listMin xs with
    | none => some x
    | some m => some (min x m)

/-- Result of one `wait_if_needed` call: the new limiter state, the
wall-clock time at which the call returns, and the timestamp it appended
to both ledgers (`none` when the daily-capacity branch returned without
recording anything). -/
structure RLStep where
  state : RLState
  endTime : ℚ
  recorded : Option ℚ

/-- The daily reset at the top of `wait_if_needed`: when a new calendar
day has begun, clear the daily ledger and remember the day. -/
def daily_reset (s : RLState) (t : ℚ) : RLState :=
  if dayOf t > s.lastResetDay then
    { s with calls_per_day := [], lastResetDay := dayOf t }
  else s

/-- The body of `RateLimiter.wait_if_needed` after the daily reset, entered
at wall-clock time `t`: prune both ledgers; if the daily ledger is at
capacity, sleep until local midnight, clear both ledgers and return
without recording (the early `return` of the daily branch); else if the
per-minute ledger is at capacity, sleep `60 - (now - oldest) + 5` seconds,
re-prune the per-minute ledger at the refreshed clock and record the
refreshed time (the daily ledger is not re-pruned); otherwise record `t`
in both ledgers. -/
def wait_body (s1 : RLState) (t : ℚ) : RLStep :=
  let cpm := s1.calls_per_minute.filter (fun c => decide (c > t - 60))
  let cpd := s1.calls_per_day.filter (fun c => decide (c > t - 86400))
  if s1.max_calls_per_day ≤ cpd.length then
    { state := { s1 with calls_per_minute := [], calls_per_day := [] },
      endTime := (dayOf t + 1 : ℤ) * 86400, recorded := none }
  else if s1.max_calls_per_minute ≤ cpm.length then
    let oldest := (listMin cpm).getD 0
    let wait_time := 60 - (t - oldest) + 5
    if 0 < wait_time then
      let t2 := t + wait_time
      { state := { s1 with
          calls_per_minute := cpm.filter (fun c => decide (c > t2 - 60)) ++ [t2],
          calls_per_day := cpd ++ [t2] },
        endTime := t2, recorded := some t2 }
    else
      { state := { s1 with calls_per_minute := cpm ++ [t], calls_per_day := cpd ++ [t] },
        endTime := t, recorded := some t }
  else
    { state := { s1 with calls_per_minute := cpm ++ [t], calls_per_day := cpd ++ [t] },
      endTime := t, recorded := some t }

/-- Model of `RateLimiter.wait_if_needed` at wall-clock time `t` (read both as
`datetime.now()` and `time.time()`). -/
def wait_if_needed (s : RLState) (t : ℚ) : RLStep :=
  wait_body (daily_reset s t) t

/-- Run a sequence of `wait_if_needed` calls.  `e` is the current
wall-clock time; each element of `delays` is the (nonnegative) time
between the previous call's return and the next call's entry — the process
is single-threaded, so a call cannot begin before the previous one
returns.  Returns the final state, the final clock, and the recorded
timestamps in order. -/
def runFrom (s : RLState) (e : ℚ) : List ℚ → RLState × ℚ × List ℚ
  | [] => (s, e, [])
  | d :: ds =>
    ((runFrom (wait_if_needed s (e + d)).state (wait_if_needed s (e + d)).endTime ds).1,
      (runFrom (wait_if_needed s (e + d)).state (wait_if_needed s (e + d)).endTime ds).2.1,
      (wait_if_needed s (e + d)).recorded.toList ++
        (runFrom (wait_if_needed s (e + d)).state (wait_if_needed s (e + d)).endTime ds).2.2)

/-- Number of recorded calls inside the rolling window `(a, a + w]`. -/
def windowCount (R : List ℚ) (a w : ℚ) : Nat :=
  (R.filter (fun r => decide (a < r ∧ r ≤ a + w))).length

theorem listMin_mem : ∀ {l : List ℚ} {m : ℚ}, listMin l = some m → m ∈ l
  | [], m, h => by simp [listMin] at h
  | x :: xs, m, h => by
    cases hxs : listMin xs with
    | none =>
      simp only [listMin, hxs, Option.some.injEq] at h
      subst h
      exact List.mem_cons_self x xs
    | some m' =>
      simp only [listMin, hxs, Option.some.injEq] at h
      subst h
      rcases min_choice x m' with hc | hc
      · rw [hc]
        exact List.mem_cons_self x xs
      · rw [hc]
        exact List.mem_cons_of_mem x (listMin_mem hxs)

/-- A nonempty ledger has a minimum. -/
theorem listMin_of_ne_nil {l : List ℚ} (h : l ≠ []) : ∃ o, listMin l = some o := by
  cases l with
  | nil => exact absurd rfl h
  | cons x xs =>
    simp only [listMin]
    cases listMin xs <;> exact ⟨_, rfl⟩

/-- Dropping an element that fails the predicate makes the filter strictly
shorter. -/
theorem filter_length_lt {p : ℚ → Bool} {l : List ℚ} {x : ℚ}
    (hx : x ∈ l) (hpx : p x = false) : (l.filter p).length < l.length := by
  induction l with
  | nil => cases hx
  | cons a tl ih =>
    rcases List.mem_cons.mp hx with h | h
    · subst h
      have hle := List.length_filter_le p tl
      simp only [List.filter_cons, List.length_cons]
      rw [if_neg (by simp [hpx])]
      omega
    · by_cases hpa : p a = true
      · simp only [List.filter_cons, List.length_cons]
        rw [if_pos (by simp [hpa])]
        have := ih h
        simp only [List.length_cons]
        omega
      · simp only [List.filter_cons, List.length_cons]
        rw [if_neg (by simp [hpa])]
        have := ih h
        have := List.length_filter_le p tl
        omega

/-- Invariant tying a limiter state at rest at time `e` to the history `R`
of timestamps recorded so far: the per-minute ledger holds exactly the
records of the last 60 seconds, all records lie in the past, the daily
ledger is no longer than the history, and every rolling 60-second window
holds at most the per-minute capacity of records. -/
def MinuteInv (s : RLState) (e : ℚ) (R : List ℚ) : Prop :=
  s.calls_per_minute = R.filter (fun c => decide (c > e - 60)) ∧
  (∀ r ∈ R, r ≤ e) ∧
  s.calls_per_day.length ≤ R.length ∧
  ∀ a : ℚ, windowCount R a 60 ≤ s.max_calls_per_minute

theorem daily_reset_state (s : RLState) (t : ℚ) :
    (daily_reset s t).calls_per_minute = s.calls_per_minute ∧
    (daily_reset s t).max_calls_per_minute = s.max_calls_per_minute ∧
    (daily_reset s t).max_calls_per_day = s.max_calls_per_day ∧
    (daily_reset s t).calls_per_day.length ≤ s.calls_per_day.length := by
  unfold daily_reset
  split
  · exact ⟨rfl, rfl, rfl, by simp⟩
  · exact ⟨rfl, rfl, rfl, le_refl _⟩

theorem wait_body_step (s1 : RLState) (e t : ℚ) (R : List ℚ)
    (hcpm : s1.calls_per_minute = R.filter (fun c => decide (c > e - 60)))
    (hpast : ∀ r ∈ R, r ≤ e) (het : e ≤ t)
    (hwin : ∀ a : ℚ, windowCount R a 60 ≤ s1.max_calls_per_minute)
    (hmpm : 1 ≤ s1.max_calls_per_minute)
    (hday : s1.calls_per_day.length < s1.max_calls_per_day)
    (hdlen : s1.calls_per_day.length ≤ R.length) :
    ∃ t', (wait_body s1 t).recorded = some t' ∧ (wait_body s1 t).endTime = t' ∧ t ≤ t' ∧
      (wait_body s1 t).state.max_calls_per_minute = s1.max_calls_per_minute ∧
      (wait_body s1 t).state.max_calls_per_day = s1.max_calls_per_day ∧
      MinuteInv (wait_body s1 t).state t' (R ++ [t']) := by
  have hprune : s1.calls_per_minute.filter (fun c => decide (c > t - 60)) =
      R.filter (fun c => decide (c > t - 60)) := by
    rw [hcpm, List.filter_filter]
    refine List.filter_congr ?_
    intro x _
    by_cases hxt : x > t - 60
    · have hxe : x > e - 60 := by linarith
      simp [hxt, hxe]
    · simp [hxt]
  have hcountR : (R.filter (fun c => decide (c > t - 60))).length ≤
      s1.max_calls_per_minute := by
    have heq : R.filter (fun c => decide (c > t - 60)) =
        R.filter (fun r => decide (t - 60 < r ∧ r ≤ t - 60 + 60)) := by
      refine List.filter_congr ?_
      intro x hx
      have hxe := hpast x hx
      rw [decide_eq_decide]
      constructor
      · intro h'
        exact ⟨h', by linarith⟩
      · intro h'
        exact h'.1
    rw [heq]
    exact hwin (t - 60)
  have hdailyc : ¬ s1.max_calls_per_day ≤
      (s1.calls_per_day.filter (fun c => decide (c > t - 86400))).length := by
    have := List.length_filter_le (fun c => decide (c > t - 86400)) s1.calls_per_day
    omega
  by_cases hge : s1.max_calls_per_minute ≤
      (s1.calls_per_minute.filter (fun c => decide (c > t - 60))).length
  · -- the per-minute ledger is at capacity: sleep, re-prune at the refreshed
    -- clock, and record the wake-up time
    have hne : s1.calls_per_minute.filter (fun c => decide (c > t - 60)) ≠ [] := by
      intro hnil
      rw [hnil] at hge
      simp at hge
      omega
    obtain ⟨o, ho⟩ := listMin_of_ne_nil hne
    have homem : o ∈ s1.calls_per_minute.filter (fun c => decide (c > t - 60)) :=
      listMin_mem ho
    have homemR : o ∈ R.filter (fun c => decide (c > t - 60)) := hprune ▸ homem
    have hogt : o > t - 60 := by
      have := (List.mem_filter.mp homemR).2
      simpa using this
    have hwpos : (0:ℚ) < 60 - (t - o) + 5 := by linarith
    have hbody : wait_body s1 t =
        { state := { s1 with
            calls_per_minute :=
              (s1.calls_per_minute.filter (fun c => decide (c > t - 60))).filter
                (fun c => decide (c > t + (60 - (t - o) + 5) - 60)) ++
                  [t + (60 - (t - o) + 5)],
            calls_per_day := s1.calls_per_day.filter (fun c => decide (c > t - 86400)) ++
              [t + (60 - (t - o) + 5)] },
          endTime := t + (60 - (t - o) + 5), recorded := some (t + (60 - (t - o) + 5)) } := by
      simp only [wait_body]
      rw [if_neg hdailyc, if_pos hge, ho]
      simp only [Option.getD_some]
      rw [if_pos hwpos]
    refine ⟨t + (60 - (t - o) + 5), by rw [hbody], by rw [hbody], by linarith,
      by rw [hbody], by rw [hbody], ?_, ?_, ?_, ?_⟩
    · -- ledger characterisation at the new rest time
      rw [hbody]
      show (s1.calls_per_minute.filter (fun c => decide (c > t - 60))).filter
          (fun c => decide (c > t + (60 - (t - o) + 5) - 60)) ++ [t + (60 - (t - o) + 5)] =
        (R ++ [t + (60 - (t - o) + 5)]).filter
          (fun c => decide (c > t + (60 - (t - o) + 5) - 60))
      have e1 : (s1.calls_per_minute.filter (fun c => decide (c > t - 60))).filter
          (fun c => decide (c > t + (60 - (t - o) + 5) - 60)) =
          R.filter (fun c => decide (c > t + (60 - (t - o) + 5) - 60)) := by
        rw [hprune, List.filter_filter]
        refine List.filter_congr ?_
        intro x _
        by_cases hx : x > t + (60 - (t - o) + 5) - 60
        · have hx' : x > t - 60 := by linarith
          simp [hx, hx']
        · simp [hx]
      rw [e1, List.filter_append]
      congr 1
      have hpt : (fun c => decide (c > t + (60 - (t - o) + 5) - 60))
          (t + (60 - (t - o) + 5)) = true := by
        simp only [decide_eq_true_eq]
        linarith
      simp [List.filter, hpt]
    · -- all records lie in the past
      intro r hr
      rcases List.mem_append.mp hr with hr | hr
      · have := hpast r hr
        linarith
      · simp only [List.mem_singleton] at hr
        subst hr
        exact le_refl _
    · -- the daily ledger is no longer than the history
      rw [hbody]
      show ((s1.calls_per_day.filter (fun c => decide (c > t - 86400))) ++
          [t + (60 - (t - o) + 5)]).length ≤ (R ++ [t + (60 - (t - o) + 5)]).length
      have := List.length_filter_le (fun c => decide (c > t - 86400)) s1.calls_per_day
      simp only [List.length_append, List.length_singleton]
      omega
    · -- every rolling 60-second window stays within capacity
      rw [hbody]
      intro a
      show windowCount (R ++ [t + (60 - (t - o) + 5)]) a 60 ≤ s1.max_calls_per_minute
      unfold windowCount
      rw [List.filter_append]
      by_cases hin : a < t + (60 - (t - o) + 5) ∧ t + (60 - (t - o) + 5) ≤ a + 60
      · -- the window contains the new record
        have hsub : (R.filter (fun r => decide (a < r ∧ r ≤ a + 60))).length ≤
            (R.filter (fun c => decide (c > t + (60 - (t - o) + 5) - 60))).length := by
          rw [← List.countP_eq_length_filter, ← List.countP_eq_length_filter]
          refine List.countP_mono_left ?_
          intro x _ hpx
          simp only [decide_eq_true_eq] at hpx ⊢
          obtain ⟨hx1, _⟩ := hpx
          have h60 : t + (60 - (t - o) + 5) - 60 ≤ a := by linarith [hin.2]
          linarith
        have hlt : (R.filter (fun c => decide (c > t + (60 - (t - o) + 5) - 60))).length <
            (R.filter (fun c => decide (c > t - 60))).length := by
          have e1 : R.filter (fun c => decide (c > t + (60 - (t - o) + 5) - 60)) =
              (R.filter (fun c => decide (c > t - 60))).filter
                (fun c => decide (c > t + (60 - (t - o) + 5) - 60)) := by
            rw [List.filter_filter]
            refine (List.filter_congr ?_).symm
            intro x _
            by_cases hx : x > t + (60 - (t - o) + 5) - 60
            · have hx' : x > t - 60 := by linarith
              simp [hx, hx']
            · simp [hx]
          rw [e1]
          refine filter_length_lt homemR ?_
          simp only [decide_eq_false_iff_not]
          intro hcon
          linarith
        have hone := List.length_filter_le
          (fun r => decide (a < r ∧ r ≤ a + 60)) [t + (60 - (t - o) + 5)]
        simp only [List.length_append]
        simp only [List.length_singleton] at hone
        omega
      · -- the window misses the new record
        have hmiss : ([t + (60 - (t - o) + 5)].filter
            (fun r => decide (a < r ∧ r ≤ a + 60))).length = 0 := by
          have hpt : (fun r => decide (a < r ∧ r ≤ a + 60))
              (t + (60 - (t - o) + 5)) = false := by
            simp only [decide_eq_false_iff_not]
            exact hin
          simp [List.filter, hpt]
        have := hwin a
        unfold windowCount at this
        simp only [List.length_append, hmiss]
        omega
  · -- headroom in the per-minute ledger: record immediately
    have hbody : wait_body s1 t =
        { state := { s1 with
            calls_per_minute := s1.calls_per_minute.filter (fun c => decide (c > t - 60)) ++ [t],
            calls_per_day := s1.calls_per_day.filter (fun c => decide (c > t - 86400)) ++ [t] },
          endTime := t, recorded := some t } := by
      simp only [wait_body]
      rw [if_neg hdailyc, if_neg hge]
    refine ⟨t, by rw [hbody], by rw [hbody], le_refl t,
      by rw [hbody], by rw [hbody], ?_, ?_, ?_, ?_⟩
    · rw [hbody]
      show s1.calls_per_minute.filter (fun c => decide (c > t - 60)) ++ [t] =
        (R ++ [t]).filter (fun c => decide (c > t - 60))
      rw [hprune, List.filter_append]
      congr 1
      have hpt : (fun c => decide (c > t - 60)) t = true := by
        simp only [decide_eq_true_eq]
        linarith
      simp [List.filter, hpt]
    · intro r hr
      rcases List.mem_append.mp hr with hr | hr
      · have := hpast r hr
        linarith
      · simp only [List.mem_singleton] at hr
        subst hr
        exact le_refl _
    · rw [hbody]
      show ((s1.calls_per_day.filter (fun c => decide (c > t - 86400))) ++ [t]).length ≤
        (R ++ [t]).length
      have := List.length_filter_le (fun c => decide (c > t - 86400)) s1.calls_per_day
      simp only [List.length_append, List.length_singleton]
      omega
    · rw [hbody]
      intro a
      show windowCount (R ++ [t]) a 60 ≤ s1.max_calls_per_minute
      unfold windowCount
      rw [List.filter_append]
      by_cases hin : a < t ∧ t ≤ a + 60
      · have hsub : (R.filter (fun r => decide (a < r ∧ r ≤ a + 60))).length ≤
            (R.filter (fun c => decide (c > t - 60))).length := by
          rw [← List.countP_eq_length_filter, ← List.countP_eq_length_filter]
          refine List.countP_mono_left ?_
          intro x _ hpx
          simp only [decide_eq_true_eq] at hpx ⊢
          obtain ⟨hx1, _⟩ := hpx
          have h60 : t - 60 ≤ a := by linarith [hin.2]
          linarith
        rw [hprune] at hge
        have hone := List.length_filter_le (fun r => decide (a < r ∧ r ≤ a + 60)) [t]
        simp only [List.length_append]
        simp only [List.length_singleton] at hone
        omega
      · have hmiss : ([t].filter (fun r => decide (a < r ∧ r ≤ a + 60))).length = 0 := by
          have hpt : (fun r => decide (a < r ∧ r ≤ a + 60)) t = false := by
            simp only [decide_eq_false_iff_not]
            exact hin
          simp [List.filter, hpt]
        have := hwin a
        unfold windowCount at this
        simp only [List.length_append, hmiss]
        omega

theorem wait_if_needed_step (s : RLState) (e t : ℚ) (R : List ℚ)
    (hinv : MinuteInv s e R) (het : e ≤ t) (hmpm : 1 ≤ s.max_calls_per_minute)
    (hday : R.length < s.max_calls_per_day) :
    ∃ t', (wait_if_needed s t).recorded = some t' ∧ (wait_if_needed s t).endTime = t' ∧
      t ≤ t' ∧
      (wait_if_needed s t).state.max_calls_per_minute = s.max_calls_per_minute ∧
      (wait_if_needed s t).state.max_calls_per_day = s.max_calls_per_day ∧
      MinuteInv (wait_if_needed s t).state t' (R ++ [t']) := by
  obtain ⟨hcpm, hpast, hdlen, hwin⟩ := hinv
  obtain ⟨h1, h2, h3, h4⟩ := daily_reset_state s t
  have hstep := wait_body_step (daily_reset s t) e t R (by rw [h1, hcpm]) hpast het
    (fun a => by rw [h2]; exact hwin a) (by rw [h2]; exact hmpm)
    (by rw [h3]; omega) (by omega)
  obtain ⟨t', ha, hb, hc, hd, he', hf⟩ := hstep
  unfold wait_if_needed
  exact ⟨t', ha, hb, hc, by rw [hd, h2], by rw [he', h3], hf⟩

theorem runFrom_inv :
    ∀ (ds : List ℚ) (s : RLState) (e : ℚ) (R : List ℚ),
      MinuteInv s e R → (∀ d ∈ ds, 0 ≤ d) →
      R.length + ds.length ≤ s.max_calls_per_day → 1 ≤ s.max_calls_per_minute →
      MinuteInv (runFrom s e ds).1 (runFrom s e ds).2.1 (R ++ (runFrom s e ds).2.2) ∧
      (runFrom s e ds).1.max_calls_per_minute = s.max_calls_per_minute
  | [], s, e, R, hinv, _, _, _ => by
    constructor
    · simpa [runFrom] using hinv
    · rfl
  | d :: ds, s, e, R, hinv, hd, hlen, hmpm => by
    have hd0 : 0 ≤ d := hd d (List.mem_cons_self d ds)
    have hdaylt : R.length < s.max_calls_per_day := by
      simp only [List.length_cons] at hlen
      omega
    obtain ⟨t', hrec, hend, htle, hcapm, hcapd, hinv'⟩ :=
      wait_if_needed_step s e (e + d) R hinv (by linarith) hmpm hdaylt
    have hrec' := runFrom_inv ds (wait_if_needed s (e + d)).state
      (wait_if_needed s (e + d)).endTime (R ++ [t'])
      (by rw [hend]; exact hinv')
      (fun x hx => hd x (List.mem_cons_of_mem d hx))
      (by
        rw [hcapd]
        have ha' : (R ++ [t']).length = R.length + 1 := by simp
        have hb' : (d :: ds).length = ds.length + 1 := rfl
        rw [hb'] at hlen
        rw [ha']
        omega)
      (by rw [hcapm]; exact hmpm)
    simp only [runFrom, hrec, Option.toList_some]
    refine ⟨?_, by rw [hrec'.2, hcapm]⟩
    have := hrec'.1
    rwa [List.append_assoc] at this

/-- Claim C2 (amended): provided the run makes no more acquisitions than
the configured daily capacity — so the daily-capacity midnight path, which
clears the per-minute ledger, is never taken — and the per-minute capacity
is positive, the Quota Governor allows at most the configured per-minute
capacity of recorded calls within any rolling 60-second window, across
arbitrary (single-threaded, nonnegative-delay) call timing patterns.
The rolling 24-hour bound of the claim, and the per-minute bound without
this proviso, are false on the code. -/
theorem rateLimiter_minute_window (mpm mpd : Nat) (d0 : ℤ) (t0 : ℚ) (ds : List ℚ)
    (hmpm : 1 ≤ mpm) (hn : ds.length ≤ mpd) (hd : ∀ d ∈ ds, 0 ≤ d) (a : ℚ) :
    windowCount (runFrom (RateLimiter_init mpm mpd d0) t0 ds).2.2 a 60 ≤ mpm := by
  have hinit : MinuteInv (RateLimiter_init mpm mpd d0) t0 [] :=
    ⟨rfl, by simp, by simp [RateLimiter_init], fun a => by simp [windowCount]⟩
  have h := runFrom_inv ds (RateLimiter_init mpm mpd d0) t0 [] hinit hd
    (by simpa using hn) hmpm
  have hw := h.1.2.2.2 a
  rw [h.2] at hw
  simpa using hw

theorem rateLimiter_minute_window_witness :
    1 ≤ 1 ∧ [(0:ℚ), 0, 0].length ≤ 800 ∧ (∀ d ∈ [(0:ℚ), 0, 0], 0 ≤ d) ∧
    windowCount (runFrom (RateLimiter_init 1 800 0) 0 [0, 0, 0]).2.2 (-1) 60 ≤ 1 :=
  ⟨le_refl 1, by simp, by simp,
    rateLimiter_minute_window 1 800 0 0 [0, 0, 0] (le_refl 1) (by simp) (by simp) (-1)⟩

/-- Claim C2 as stated is false on the code: with capacities 1 per minute
and 1 per day, a limiter constructed on day 0, and the legal schedule with
delays [86399, 0, 1] — acquire at 86399 (recorded), acquire again at 86399
(the daily ledger is at capacity: sleep one second to midnight, clear both
ledgers, record nothing), acquire at 86401 (the calendar-day reset leaves
both ledgers empty, so it is allowed and recorded) — two recorded calls
lie inside the rolling 60-second window (86398, 86458] against a
per-minute capacity of 1, and inside the rolling 24-hour window
(86000, 172400] against a daily capacity of 1. -/
theorem rateLimiter_window_counterexample :
    (∀ d ∈ [(86399:ℚ), 0, 1], 0 ≤ d) ∧
    (runFrom (RateLimiter_init 1 1 0) 0 [86399, 0, 1]).2.2 = [86399, 86401] ∧
    windowCount (runFrom (RateLimiter_init 1 1 0) 0 [86399, 0, 1]).2.2 86398 60 = 2 ∧
    windowCount (runFrom (RateLimiter_init 1 1 0) 0 [86399, 0, 1]).2.2 86000 86400 = 2 := by
  refine ⟨by norm_num, ?_, ?_, ?_⟩ <;>
    norm_num [runFrom, wait_if_needed, wait_body, daily_reset, RateLimiter_init, dayOf,
      listMin, windowCount]

/-- Claim C9 is contradicted by the code: an acquire that takes the
daily-capacity midnight path returns without appending its timestamp to
either ledger — the early `return` in the daily branch skips the
`# Record this call` step, so the allowed call (the API call is made
right after `wait_if_needed` returns) is never recorded.  Concretely, with
a daily capacity of 1: after one recorded call at 86399, a second acquire
at 86399 sleeps to midnight, clears both ledgers and records nothing — two
acquires leave a single recorded timestamp, and the limiter state after
the second acquire holds no trace of it. -/
theorem rateLimiter_midnight_no_record :
    (runFrom (RateLimiter_init 6 1 0) 0 [86399, 0]).2.2 = [86399] ∧
    (wait_if_needed ⟨6, 1, [86399], [86399], 0⟩ 86399).recorded = none ∧
    (wait_if_needed ⟨6, 1, [86399], [86399], 0⟩ 86399).state.calls_per_minute = [] ∧
    (wait_if_needed ⟨6, 1, [86399], [86399], 0⟩ 86399).state.calls_per_day = [] := by
  refine ⟨?_, ?_, ?_, ?_⟩ <;>
    norm_num [runFrom, wait_if_needed, wait_body, daily_reset, RateLimiter_init, dayOf,
      listMin]

end ChessAdv
